import Mathlib

/-!
Verification of the country-regulation data model and update semantics of the
Tokenization maintenance scripts (src/scripts/fetch_regulations.py and
src/scripts/update_metadata.py).

The scripts manipulate JSON data: an aggregate mapping of country code to
regulatory record (a JSON object), per-country files, and a metadata object.
We embed JSON values as the inductive type `Json`, and Python dictionaries as
insertion-ordered association lists (`List (String × _)`), with `getKey`,
`setKey`, `hasKey` mirroring Python dict lookup, item assignment (replace in
place, append if absent) and the `in` operator.  The wall clock
(`datetime.now().strftime` in the source) is passed explicitly as a `today`
string argument.
-/

/-- A JSON value, as produced by the Python `json` module for the data handled
by these scripts.  Objects are insertion-ordered association lists, matching
Python dict semantics.  JSON floats are outside the embedding (the dataset and
the knowledge base contain none). -/
inductive Json where
  | null : Json
  | bool (b : Bool) : Json
  | num (n : Int) : Json
  | str (s : String) : Json
  | arr (elems : List Json) : Json
  | obj (members : List (String × Json)) : Json

/-- A regulatory record for one country: a JSON object, i.e. an ordered
mapping from field name to JSON value (spec section 3, CountryRecord). -/
abbrev Obj := List (String × Json)

/-- The Country Record Store: ordered mapping from country code to record,
the in-memory form of `self.countries_data` / `data/countries.json`. -/
abbrev Store := List (String × Obj)

/-- Python dict lookup `d[k]` (first, and for a genuine dict only, binding). -/
def getKey {α : Type} : List (String × α) → String → Option α
  | [], _ => none
  | (k0, v0) :: rest, k => if k0 = k then some v0 else getKey rest k

/-- Python dict item assignment `d[k] = v`: replaces the binding in place if
the key is present, appends a new binding otherwise. -/
def setKey {α : Type} : List (String × α) → String → α → List (String × α)
  | [], k, v => [(k, v)]
  | (k0, v0) :: rest, k, v =>
      if k0 = k then (k, v) :: rest else (k0, v0) :: setKey rest k v

/-- Python `k in d`. -/
def hasKey {α : Type} (l : List (String × α)) (k : String) : Bool :=
  (getKey l k).isSome

/-- The key list of a dict (Python `list(d.keys())`). -/
def keysOf {α : Type} (l : List (String × α)) : List String :=
  l.map Prod.fst

/-- Removal of a key (used only to state record equality up to one field). -/
def eraseKey {α : Type} : List (String × α) → String → List (String × α)
  | [], _ => []
  | (k0, v0) :: rest, k =>
      if k0 = k then rest else (k0, v0) :: eraseKey rest k

theorem getKey_setKey {α : Type} (l : List (String × α)) (k k' : String) (v : α) :
    getKey (setKey l k v) k' = if k' = k then some v else getKey l k' := by
  induction l with
  | nil =>
    by_cases h : k' = k
    · subst h; simp [setKey, getKey]
    · have h' : ¬ k = k' := fun hc => h hc.symm
      simp [setKey, getKey, h, h']
  | cons p rest ih =>
    obtain ⟨k0, v0⟩ := p
    by_cases h0 : k0 = k
    · subst h0
      by_cases h : k' = k0
      · subst h; simp [setKey, getKey]
      · have h' : ¬ k0 = k' := fun hc => h hc.symm
        simp [setKey, getKey, h, h']
    · by_cases h : k' = k0
      · subst h
        have hne : ¬ k' = k := fun hc => h0 (hc ▸ rfl)
        simp [setKey, getKey, h0, hne]
      · have h' : ¬ k0 = k' := fun hc => h hc.symm
        simp [setKey, getKey, h0, h, h', ih]

theorem getKey_setKey_self {α : Type} (l : List (String × α)) (k : String) (v : α) :
    getKey (setKey l k v) k = some v := by
  simp [getKey_setKey]

theorem getKey_setKey_ne {α : Type} (l : List (String × α)) (k k' : String) (v : α)
    (h : k' ≠ k) : getKey (setKey l k v) k' = getKey l k' := by
  simp [getKey_setKey, h]

theorem setKey_setKey_same {α : Type} (l : List (String × α)) (k : String) (v w : α) :
    setKey (setKey l k v) k w = setKey l k w := by
  induction l with
  | nil => simp [setKey]
  | cons p rest ih =>
    obtain ⟨k0, v0⟩ := p
    by_cases h0 : k0 = k
    · simp [setKey, h0]
    · simp [setKey, h0, ih]

theorem setKey_of_getKey_eq {α : Type} (l : List (String × α)) (k : String) (v : α)
    (h : getKey l k = some v) : setKey l k v = l := by
  induction l with
  | nil => simp [getKey] at h
  | cons p rest ih =>
    obtain ⟨k0, v0⟩ := p
    by_cases h0 : k0 = k
    · subst h0
      simp [getKey] at h
      simp [setKey, h]
    · simp [getKey, h0] at h
      simp [setKey, h0, ih h]

theorem eraseKey_setKey {α : Type} (l : List (String × α)) (k : String) (v : α) :
    eraseKey (setKey l k v) k = eraseKey l k := by
  induction l with
  | nil => simp [setKey, eraseKey]
  | cons p rest ih =>
    obtain ⟨k0, v0⟩ := p
    by_cases h0 : k0 = k
    · simp [setKey, eraseKey, h0]
    · simp [setKey, eraseKey, h0, ih]

theorem hasKey_setKey {α : Type} (l : List (String × α)) (k k' : String) (v : α) :
    hasKey (setKey l k v) k' = (k' == k || hasKey l k') := by
  by_cases h : k' = k
  · simp [hasKey, getKey_setKey, h]
  · simp [hasKey, getKey_setKey, h]

theorem keysOf_setKey {α : Type} (l : List (String × α)) (k : String) (v : α) :
    keysOf (setKey l k v) =
      if hasKey l k then keysOf l else keysOf l ++ [k] := by
  induction l with
  | nil => simp [setKey, keysOf, hasKey, getKey]
  | cons p rest ih =>
    obtain ⟨k0, v0⟩ := p
    by_cases h0 : k0 = k
    · simp [setKey, keysOf, hasKey, getKey, h0]
    · have h0' : ¬ k = k0 := fun hc => h0 (hc ▸ rfl)
      by_cases hh : hasKey rest k
      · simp [setKey, keysOf, hasKey, getKey, h0, h0'] at ih ⊢
        simp [hasKey] at hh
        simp [hh] at ih
        simp [hh, ih]
      · simp [setKey, keysOf, hasKey, getKey, h0, h0'] at ih ⊢
        simp [hasKey] at hh
        simp [hh] at ih
        simp [hh, ih]

theorem hasKey_iff_mem_keysOf {α : Type} (l : List (String × α)) (k : String) :
    hasKey l k = true ↔ k ∈ keysOf l := by
  induction l with
  | nil => simp [hasKey, getKey, keysOf]
  | cons p rest ih =>
    obtain ⟨k0, v0⟩ := p
    by_cases h0 : k0 = k
    · simp [hasKey, getKey, keysOf, h0]
    · have h0' : ¬ k = k0 := fun hc => h0 (hc ▸ rfl)
      simp [hasKey, getKey, keysOf, h0, h0'] at ih ⊢
      exact ih

theorem getKey_eq_none_of_hasKey_false {α : Type} (l : List (String × α)) (k : String)
    (h : hasKey l k = false) : getKey l k = none := by
  unfold hasKey at h
  cases hg : getKey l k with
  | none => rfl
  | some v => rw [hg] at h; simp at h

theorem setKey_comm {α : Type} (l : List (String × α)) (k k' : String) (v v' : α)
    (hne : k ≠ k') (hp : hasKey l k = true ∨ hasKey l k' = true) :
    setKey (setKey l k v) k' v' = setKey (setKey l k' v') k v := by
  induction l with
  | nil =>
    rcases hp with h | h <;> simp [hasKey, getKey] at h
  | cons p rest ih =>
    obtain ⟨k0, v0⟩ := p
    have hne' : k' ≠ k := fun hc => hne (hc ▸ rfl)
    by_cases h0 : k0 = k
    · subst h0
      simp [setKey, hne', hne]
    · by_cases h1 : k0 = k'
      · subst h1
        simp [setKey, hne, hne', h0]
      · by_cases hpr : hasKey rest k = true ∨ hasKey rest k' = true
        · simp [setKey, h0, h1, ih hpr]
        · push_neg at hpr
          obtain ⟨ha, hb⟩ := hpr
          rcases hp with h | h
          · exact absurd (by simpa [hasKey, getKey, h0] using h) ha
          · exact absurd (by simpa [hasKey, getKey, h1] using h) hb

/-!
The fixed in-code knowledge base of `RegulationFetcher.fetch_singapore_mas_data`
(src/scripts/fetch_regulations.py, lines 44-259), transcribed field by field.
-/

/-- The empty Singapore record created when `SG` is absent from the store
(fetch_regulations.py lines 46-56). -/
def sgInit : Obj :=
  [ ("overview", Json.str ""),
    ("regulations", Json.arr []),
    ("requirements", Json.arr []),
    ("authorities", Json.arr []),
    ("sources", Json.arr []),
    ("whitepapers", Json.arr []),
    ("consultationPapers", Json.arr []),
    ("legalFramework", Json.arr []) ]

/-- `sg_data['overview']` (lines 61-68). -/
def sgOverview : Json :=
  Json.str ("Singapore has established a comprehensive and progressive regulatory framework " ++
    "for tokenization through the Monetary Authority of Singapore (MAS). The Payment " ++
    "Services Act (PSA) 2019 regulates digital payment tokens, while securities tokens " ++
    "fall under the Securities and Futures Act (SFA). MAS has issued extensive guidelines, " ++
    "consultation papers, and whitepapers to provide clarity on tokenization, including " ++
    "the Project Guardian initiative for asset tokenization and DeFi applications.")

/-- `sg_data['regulations']` (lines 71-99). -/
def sgRegulations : Json :=
  Json.arr
    [ Json.obj
        [ ("title", Json.str "Payment Services Act (PSA) 2019"),
          ("description", Json.str "Comprehensive framework governing digital payment token (DPT) services including exchanges, wallet providers, and payment token issuers. Requires licensing for DPT service providers."),
          ("effectiveDate", Json.str "2020-01-28"),
          ("reference", Json.str "Act 2 of 2019") ],
      Json.obj
        [ ("title", Json.str "Securities and Futures Act (SFA)"),
          ("description", Json.str "Applies to tokens that constitute capital markets products, including securities or derivatives. Governs the offer, sale, and trading of security tokens."),
          ("reference", Json.str "Chapter 289") ],
      Json.obj
        [ ("title", Json.str "MAS Notice PSN01 on Prevention of Money Laundering and Countering the Financing of Terrorism"),
          ("description", Json.str "Specific AML/CFT requirements for digital payment token service providers under the PSA"),
          ("effectiveDate", Json.str "2020-01-28") ],
      Json.obj
        [ ("title", Json.str "MAS Guidelines on Digital Token Offerings"),
          ("description", Json.str "Provides guidance on the application of securities laws to digital token offerings, including the framework for determining if a token is a capital markets product"),
          ("publicationDate", Json.str "2017-11-14"),
          ("updated", Json.str "2020-01-07") ],
      Json.obj
        [ ("title", Json.str "Variable Capital Companies Act 2018"),
          ("description", Json.str "Enables tokenization of investment funds through Variable Capital Companies (VCCs) structure, facilitating digital asset funds"),
          ("effectiveDate", Json.str "2020-01-14") ] ]

/-- `sg_data['whitepapers']` (lines 102-128). -/
def sgWhitepapers : Json :=
  Json.arr
    [ Json.obj
        [ ("title", Json.str "Project Guardian: An Open and Interoperable Ecosystem for Digital Assets"),
          ("description", Json.str "Industry collaboration to test the feasibility of asset tokenization and DeFi applications in wholesale funding markets, exploring institutional DeFi"),
          ("date", Json.str "2022-11"),
          ("url", Json.str "https://www.mas.gov.sg/schemes-and-initiatives/project-guardian"),
          ("keyTopics", Json.arr [Json.str "Asset tokenization", Json.str "DeFi", Json.str "Institutional adoption", Json.str "Interoperability"]) ],
      Json.obj
        [ ("title", Json.str "Project Orchid: Retail CBDC"),
          ("description", Json.str "Exploration of a purpose-bound digital Singapore dollar for retail use, examining the technical and policy considerations"),
          ("date", Json.str "2023-10"),
          ("keyTopics", Json.arr [Json.str "Central Bank Digital Currency", Json.str "Retail payments", Json.str "Digital SGD"]) ],
      Json.obj
        [ ("title", Json.str "Project Ubin Phase 5: Enabling Broad Ecosystem Opportunities"),
          ("description", Json.str "Industry collaboration exploring blockchain-based multi-currency payments and settlements, demonstrating delivery versus payment settlement for tokenized assets"),
          ("date", Json.str "2020-07"),
          ("keyTopics", Json.arr [Json.str "Wholesale CBDC", Json.str "Cross-border payments", Json.str "DvP settlement", Json.str "Tokenized securities"]) ],
      Json.obj
        [ ("title", Json.str "Stablecoin Regulatory Framework"),
          ("description", Json.str "MAS framework for regulating stablecoins, distinguishing between single-currency and multi-currency pegged stablecoins"),
          ("date", Json.str "2023-08"),
          ("keyTopics", Json.arr [Json.str "Stablecoins", Json.str "Reserve requirements", Json.str "Redemption rights", Json.str "Regulatory framework"]) ] ]

/-- `sg_data['consultationPapers']` (lines 130-155). -/
def sgConsultationPapers : Json :=
  Json.arr
    [ Json.obj
        [ ("title", Json.str "Proposed Regulatory Approach for Stablecoin-related Activities"),
          ("description", Json.str "Consultation on regulatory framework for stablecoin issuance and reserve management, capital and liquidity requirements"),
          ("date", Json.str "2022-10-26"),
          ("consultationPeriod", Json.str "2022-10-26 to 2022-12-21"),
          ("status", Json.str "Framework implemented in 2023") ],
      Json.obj
        [ ("title", Json.str "Consultation Paper on Proposed Amendments to the Payment Services Act"),
          ("description", Json.str "Proposed enhancements to PSA framework including expanded scope and strengthened consumer protection measures"),
          ("date", Json.str "2024-08"),
          ("keyProposals", Json.arr
            [ Json.str "Expanded licensing regime",
              Json.str "Enhanced consumer protection",
              Json.str "Strengthened AML/CFT measures",
              Json.str "Technology risk management requirements" ]) ],
      Json.obj
        [ ("title", Json.str "Consultation on Financial Services and Markets Bill"),
          ("description", Json.str "Comprehensive reform of financial services regulatory framework, including provisions affecting digital assets"),
          ("date", Json.str "2021-11"),
          ("status", Json.str "Bill passed in 2022") ] ]

/-- `sg_data['legalFramework']` (lines 158-194). -/
def sgLegalFramework : Json :=
  Json.arr
    [ Json.obj
        [ ("law", Json.str "Payment Services Act 2019"),
          ("chapter", Json.str "Act 2 of 2019"),
          ("keyProvisions", Json.arr
            [ Json.str "Part 2: Licensing of payment service providers (including DPT services)",
              Json.str "Section 5: Digital payment token service defined",
              Json.str "Section 6: Licensing requirements for DPT service providers",
              Json.str "Part 5: Business conduct requirements",
              Json.str "Part 6: Technology risk management requirements" ]),
          ("penalties", Json.str "Up to SGD 125,000 fine and/or 3 years imprisonment for operating without a license") ],
      Json.obj
        [ ("law", Json.str "Securities and Futures Act"),
          ("chapter", Json.str "Chapter 289"),
          ("keyProvisions", Json.arr
            [ Json.str "Section 239: Definition of capital markets products",
              Json.str "Section 286-287: Prohibition on false trading and market manipulation",
              Json.str "Part XIII: Offers of investments (prospectus requirements)",
              Json.str "First Schedule: Specified securities (includes digital tokens meeting criteria)" ]),
          ("penalties", Json.str "Civil and criminal penalties for unlicensed activities and market misconduct") ],
      Json.obj
        [ ("law", Json.str "Financial Services and Markets Act 2022"),
          ("chapter", Json.str "Act 29 of 2022"),
          ("keyProvisions", Json.arr
            [ Json.str "Consolidated framework for financial services regulation",
              Json.str "Enhanced powers for MAS oversight",
              Json.str "Technology risk management requirements",
              Json.str "Consumer protection measures for digital assets" ]),
          ("effectiveDate", Json.str "Phased implementation from 2023") ] ]

/-- `sg_data['requirements']` (lines 197-208). -/
def sgRequirements : Json :=
  Json.arr
    [ Json.str "License required under PSA for operating digital payment token services (exchange, transfer, custodian services)",
      Json.str "Capital requirements: Minimum base capital of SGD 250,000 for DPT services",
      Json.str "AML/CFT compliance mandatory under PSA Notice PSN01 including customer due diligence, transaction monitoring, and suspicious transaction reporting",
      Json.str "Technology risk management standards per MAS TRM Guidelines including cybersecurity, data protection, business continuity",
      Json.str "Safeguarding of customer assets: Segregation of customer DPT and monies from company assets",
      Json.str "Consumer protection measures including disclosure requirements, complaint handling procedures",
      Json.str "Audit requirements: Annual statutory audit and submission to MAS",
      Json.str "For security tokens: Compliance with SFA prospectus requirements or exemptions",
      Json.str "Stablecoin issuers: Reserve backing, redemption rights, transparency requirements (if regulated as DPT)",
      Json.str "Corporate governance: Fit and proper criteria for officers, key personnel" ]

/-- `sg_data['authorities']` (lines 211-215). -/
def sgAuthorities : Json :=
  Json.arr
    [ Json.str "Monetary Authority of Singapore (MAS) - Primary regulator for payment services and securities",
      Json.str "Accounting and Corporate Regulatory Authority (ACRA) - Company registration and compliance",
      Json.str "Singapore Police Force - Commercial Affairs Department (CAD) - Financial crime enforcement" ]

/-- `sg_data['sources']` (lines 218-254). -/
def sgSources : Json :=
  Json.arr
    [ Json.obj
        [ ("name", Json.str "MAS Payment Services"),
          ("url", Json.str "https://www.mas.gov.sg/regulation/payments"),
          ("type", Json.str "Regulatory Portal") ],
      Json.obj
        [ ("name", Json.str "MAS Digital Assets"),
          ("url", Json.str "https://www.mas.gov.sg/regulation/fintech/digital-assets"),
          ("type", Json.str "Regulatory Portal") ],
      Json.obj
        [ ("name", Json.str "Payment Services Act 2019"),
          ("url", Json.str "https://sso.agc.gov.sg/Act/PSA2019"),
          ("type", Json.str "Legislation") ],
      Json.obj
        [ ("name", Json.str "Securities and Futures Act"),
          ("url", Json.str "https://sso.agc.gov.sg/Act/SFA2001"),
          ("type", Json.str "Legislation") ],
      Json.obj
        [ ("name", Json.str "Project Guardian"),
          ("url", Json.str "https://www.mas.gov.sg/schemes-and-initiatives/project-guardian"),
          ("type", Json.str "Initiative") ],
      Json.obj
        [ ("name", Json.str "MAS Guidelines on Digital Token Offerings"),
          ("url", Json.str "https://www.mas.gov.sg/regulation/securities-futures-and-fund-management"),
          ("type", Json.str "Guidelines") ],
      Json.obj
        [ ("name", Json.str "Singapore Statutes Online"),
          ("url", Json.str "https://sso.agc.gov.sg/"),
          ("type", Json.str "Legal Database") ] ]

/-- The eleven field assignments performed on `sg_data` by
`fetch_singapore_mas_data` (lines 61-259), in source order.  In Python these
are in-place item assignments on the record dict; here the record is threaded
through `setKey`. -/
def sgComprehensive (today : String) (sg : Obj) : Obj :=
  let sg := setKey sg "overview" sgOverview
  let sg := setKey sg "regulations" sgRegulations
  let sg := setKey sg "whitepapers" sgWhitepapers
  let sg := setKey sg "consultationPapers" sgConsultationPapers
  let sg := setKey sg "legalFramework" sgLegalFramework
  let sg := setKey sg "requirements" sgRequirements
  let sg := setKey sg "authorities" sgAuthorities
  let sg := setKey sg "sources" sgSources
  let sg := setKey sg "lastUpdated" (Json.str today)
  let sg := setKey sg "autoFetched" (Json.bool true)
  setKey sg "dataVersion" (Json.str "2.0")

/-- `RegulationFetcher.fetch_singapore_mas_data` (lines 34-267): create the
`SG` record if absent, then overwrite its eleven fields from the knowledge
base.  `today` stands for the `datetime.now().strftime` current-date string;
the `print` calls are presentation only and are not modelled. -/
def fetch_singapore_mas_data (today : String) (store : Store) : Store :=
  let store1 := if hasKey store "SG" then store else setKey store "SG" sgInit
  setKey store1 "SG" (sgComprehensive today ((getKey store1 "SG").getD []))

/-- `RegulationFetcher.fetch_us_sec_data` (lines 269-281): placeholder that
stamps `lastUpdated` and `autoFetched` on an existing `US` record and is a
no-op (apart from a printed notice) when `US` is absent. -/
def fetch_us_sec_data (today : String) (store : Store) : Store :=
  match getKey store "US" with
  | some usData =>
      setKey store "US"
        (setKey (setKey usData "lastUpdated" (Json.str today)) "autoFetched" (Json.bool true))
  | none => store

/-- `RegulationFetcher.fetch_uk_fca_data` (lines 283-295), same placeholder
pattern for `GB`. -/
def fetch_uk_fca_data (today : String) (store : Store) : Store :=
  match getKey store "GB" with
  | some gbData =>
      setKey store "GB"
        (setKey (setKey gbData "lastUpdated" (Json.str today)) "autoFetched" (Json.bool true))
  | none => store

/-- `RegulationFetcher.fetch_switzerland_finma_data` (lines 297-309), same
placeholder pattern for `CH`. -/
def fetch_switzerland_finma_data (today : String) (store : Store) : Store :=
  match getKey store "CH" with
  | some chData =>
      setKey store "CH"
        (setKey (setKey chData "lastUpdated" (Json.str today)) "autoFetched" (Json.bool true))
  | none => store

/-- `RegulationFetcher.fetch_all_sources` (lines 311-320): the four updaters
in source order.  All run within one invocation, so they see the same
current date. -/
def fetch_all_sources (today : String) (store : Store) : Store :=
  fetch_switzerland_finma_data today
    (fetch_uk_fca_data today
      (fetch_us_sec_data today
        (fetch_singapore_mas_data today store)))

/-- `update_metadata` (src/scripts/update_metadata.py, lines 12-40).  The two
file reads are passed as `Option` arguments: `none` models an absent file
(`Path.exists` false), `some` its parsed contents.  The function returns the
metadata object written back to `data/metadata.json`. -/
def update_metadata (today : String) (metadataFile : Option Obj)
    (countriesFile : Option Store) : Obj :=
  let metadata := match metadataFile with
    | some m => m
    | none => []
  let total_countries : Nat := match countriesFile with
    | some countries_data => countries_data.length
    | none => 0
  let metadata := setKey metadata "lastUpdated" (Json.str today)
  let metadata := setKey metadata "totalCountries" (Json.num (Int.ofNat total_countries))
  setKey metadata "dataSource" (Json.str "Automated periodic updates and manual curation")

/-- The `SG` record of a store (defaulting to the empty record), used to state
properties of the Singapore updater. -/
def sgRecordOf (store : Store) : Obj :=
  (getKey store "SG").getD []

/-!
Derived facts about the Singapore updater.
-/

theorem getKey_sgComprehensive (today : String) (b : Obj) (f : String) :
    getKey (sgComprehensive today b) f =
      if f = "dataVersion" then some (Json.str "2.0")
      else if f = "autoFetched" then some (Json.bool true)
      else if f = "lastUpdated" then some (Json.str today)
      else if f = "sources" then some sgSources
      else if f = "authorities" then some sgAuthorities
      else if f = "requirements" then some sgRequirements
      else if f = "legalFramework" then some sgLegalFramework
      else if f = "consultationPapers" then some sgConsultationPapers
      else if f = "whitepapers" then some sgWhitepapers
      else if f = "regulations" then some sgRegulations
      else if f = "overview" then some sgOverview
      else getKey b f := by
  simp only [sgComprehensive, getKey_setKey]

/-- Re-running the eleven assignments on a record that already carries their
results only rewrites `lastUpdated`. -/
theorem sgComprehensive_stable (today : String) (a : Obj)
    (hov : getKey a "overview" = some sgOverview)
    (hre : getKey a "regulations" = some sgRegulations)
    (hwp : getKey a "whitepapers" = some sgWhitepapers)
    (hcp : getKey a "consultationPapers" = some sgConsultationPapers)
    (hlf : getKey a "legalFramework" = some sgLegalFramework)
    (hrq : getKey a "requirements" = some sgRequirements)
    (hau : getKey a "authorities" = some sgAuthorities)
    (hso : getKey a "sources" = some sgSources)
    (haf : getKey a "autoFetched" = some (Json.bool true))
    (hdv : getKey a "dataVersion" = some (Json.str "2.0")) :
    sgComprehensive today a = setKey a "lastUpdated" (Json.str today) := by
  have haf2 : getKey (setKey a "lastUpdated" (Json.str today)) "autoFetched"
      = some (Json.bool true) := by
    rw [getKey_setKey_ne a "lastUpdated" "autoFetched" (Json.str today) (by decide)]
    exact haf
  have hdv2 : getKey (setKey a "lastUpdated" (Json.str today)) "dataVersion"
      = some (Json.str "2.0") := by
    rw [getKey_setKey_ne a "lastUpdated" "dataVersion" (Json.str today) (by decide)]
    exact hdv
  simp only [sgComprehensive]
  rw [setKey_of_getKey_eq _ _ _ hov, setKey_of_getKey_eq _ _ _ hre,
      setKey_of_getKey_eq _ _ _ hwp, setKey_of_getKey_eq _ _ _ hcp,
      setKey_of_getKey_eq _ _ _ hlf, setKey_of_getKey_eq _ _ _ hrq,
      setKey_of_getKey_eq _ _ _ hau, setKey_of_getKey_eq _ _ _ hso,
      setKey_of_getKey_eq _ _ _ haf2, setKey_of_getKey_eq _ _ _ hdv2]

/-- The record the Singapore updater starts from: the existing `SG` record,
or the freshly created `sgInit` when `SG` is absent. -/
def sgPrior (store : Store) : Obj :=
  if hasKey store "SG" then (getKey store "SG").getD [] else sgInit

theorem fetch_singapore_eq (today : String) (store : Store) :
    fetch_singapore_mas_data today store =
      setKey store "SG" (sgComprehensive today (sgPrior store)) := by
  unfold fetch_singapore_mas_data sgPrior
  by_cases h : hasKey store "SG"
  · simp [h]
  · simp [h, getKey_setKey_self, setKey_setKey_same]

theorem sgRecordOf_fetch_singapore (today : String) (store : Store) :
    sgRecordOf (fetch_singapore_mas_data today store) =
      sgComprehensive today (sgPrior store) := by
  rw [fetch_singapore_eq]
  simp [sgRecordOf, getKey_setKey_self]

theorem getKey_fetch_singapore_ne (today : String) (store : Store) (c : String)
    (h : c ≠ "SG") :
    getKey (fetch_singapore_mas_data today store) c = getKey store c := by
  rw [fetch_singapore_eq, getKey_setKey_ne _ _ _ _ h]

theorem hasKey_fetch_singapore (today : String) (store : Store) (c : String) :
    hasKey (fetch_singapore_mas_data today store) c = (c == "SG" || hasKey store c) := by
  rw [fetch_singapore_eq, hasKey_setKey]

/-!
The three placeholder updaters share one shape (stamp `lastUpdated` and
`autoFetched` on an existing record, skip otherwise); `stampCountry` names
that shape so that frame and commutation facts can be proved once.
-/

def stampCountry (code today : String) (store : Store) : Store :=
  match getKey store code with
  | some r =>
      setKey store code
        (setKey (setKey r "lastUpdated" (Json.str today)) "autoFetched" (Json.bool true))
  | none => store

theorem fetch_us_eq_stamp (today : String) (store : Store) :
    fetch_us_sec_data today store = stampCountry "US" today store := rfl

theorem fetch_uk_eq_stamp (today : String) (store : Store) :
    fetch_uk_fca_data today store = stampCountry "GB" today store := rfl

theorem fetch_ch_eq_stamp (today : String) (store : Store) :
    fetch_switzerland_finma_data today store = stampCountry "CH" today store := rfl

theorem stampCountry_of_none (code today : String) (store : Store)
    (h : getKey store code = none) : stampCountry code today store = store := by
  unfold stampCountry
  rw [h]

theorem stampCountry_of_some (code today : String) (store : Store) (r : Obj)
    (h : getKey store code = some r) :
    stampCountry code today store =
      setKey store code
        (setKey (setKey r "lastUpdated" (Json.str today)) "autoFetched" (Json.bool true)) := by
  unfold stampCountry
  rw [h]

theorem getKey_stampCountry_ne (code today : String) (store : Store) (c : String)
    (h : c ≠ code) : getKey (stampCountry code today store) c = getKey store c := by
  unfold stampCountry
  cases hg : getKey store code with
  | none => rfl
  | some r => rw [getKey_setKey_ne _ _ _ _ h]

theorem hasKey_stampCountry (code today : String) (store : Store) (c : String) :
    hasKey (stampCountry code today store) c = hasKey store c := by
  unfold stampCountry
  cases hg : getKey store code with
  | none => rfl
  | some r =>
    rw [hasKey_setKey]
    by_cases h : c = code
    · subst h
      simp [hasKey, hg]
    · simp [h]

theorem keysOf_stampCountry (code today : String) (store : Store) :
    keysOf (stampCountry code today store) = keysOf store := by
  unfold stampCountry
  cases hg : getKey store code with
  | none => rfl
  | some r =>
    rw [keysOf_setKey]
    simp [hasKey, hg]

/-- Two placeholder updaters for different codes commute. -/
theorem stampCountry_comm (c1 c2 today1 today2 : String) (store : Store)
    (hne : c1 ≠ c2) :
    stampCountry c1 today1 (stampCountry c2 today2 store) =
      stampCountry c2 today2 (stampCountry c1 today1 store) := by
  cases hg1 : getKey store c1 with
  | none =>
    have l1 : stampCountry c1 today1 store = store := stampCountry_of_none _ _ _ hg1
    have l2 : getKey (stampCountry c2 today2 store) c1 = none := by
      rw [getKey_stampCountry_ne _ _ _ _ hne]; exact hg1
    rw [l1, stampCountry_of_none _ _ _ l2]
  | some r1 =>
    cases hg2 : getKey store c2 with
    | none =>
      have l2 : stampCountry c2 today2 store = store := stampCountry_of_none _ _ _ hg2
      have l1 : getKey (stampCountry c1 today1 store) c2 = none := by
        rw [getKey_stampCountry_ne _ _ _ _ (fun hc => hne hc.symm)]; exact hg2
      rw [l2, stampCountry_of_none _ _ _ l1]
    | some r2 =>
      have g12 : getKey (stampCountry c2 today2 store) c1 = some r1 := by
        rw [getKey_stampCountry_ne _ _ _ _ hne]; exact hg1
      have g21 : getKey (stampCountry c1 today1 store) c2 = some r2 := by
        rw [getKey_stampCountry_ne _ _ _ _ (fun hc => hne hc.symm)]; exact hg2
      rw [stampCountry_of_some _ _ _ _ g12, stampCountry_of_some _ _ _ _ g21,
          stampCountry_of_some _ _ _ _ hg1, stampCountry_of_some _ _ _ _ hg2]
      exact setKey_comm store c2 c1 _ _ (fun hc => hne hc.symm)
        (Or.inl (by simp [hasKey, hg2]))

/-- A placeholder updater for a non-`SG` code commutes with the Singapore
comprehensive updater. -/
theorem stampCountry_fetch_singapore_comm (c today1 today2 : String) (store : Store)
    (hc : c ≠ "SG") :
    stampCountry c today1 (fetch_singapore_mas_data today2 store) =
      fetch_singapore_mas_data today2 (stampCountry c today1 store) := by
  have hprior : sgPrior (stampCountry c today1 store) = sgPrior store := by
    unfold sgPrior
    rw [hasKey_stampCountry, getKey_stampCountry_ne _ _ _ _ (fun hcc => hc hcc.symm)]
  cases hg : getKey store c with
  | none =>
    have l1 : stampCountry c today1 store = store := stampCountry_of_none _ _ _ hg
    have l2 : getKey (fetch_singapore_mas_data today2 store) c = none := by
      rw [getKey_fetch_singapore_ne _ _ _ hc]; exact hg
    rw [l1, stampCountry_of_none _ _ _ l2]
  | some r =>
    have g2 : getKey (fetch_singapore_mas_data today2 store) c = some r := by
      rw [getKey_fetch_singapore_ne _ _ _ hc]; exact hg
    rw [stampCountry_of_some _ _ _ _ g2,
        fetch_singapore_eq today2 (stampCountry c today1 store), hprior,
        stampCountry_of_some c today1 store r hg,
        fetch_singapore_eq today2 store]
    exact setKey_comm store "SG" c _ _ (fun hcc => hc hcc.symm)
      (Or.inr (by simp [hasKey, hg]))

theorem fetch_us_singapore_comm (d1 d2 : String) (s : Store) :
    fetch_us_sec_data d1 (fetch_singapore_mas_data d2 s) =
      fetch_singapore_mas_data d2 (fetch_us_sec_data d1 s) := by
  simp only [fetch_us_eq_stamp]
  exact stampCountry_fetch_singapore_comm "US" d1 d2 s (by decide)

theorem fetch_uk_singapore_comm (d1 d2 : String) (s : Store) :
    fetch_uk_fca_data d1 (fetch_singapore_mas_data d2 s) =
      fetch_singapore_mas_data d2 (fetch_uk_fca_data d1 s) := by
  simp only [fetch_uk_eq_stamp]
  exact stampCountry_fetch_singapore_comm "GB" d1 d2 s (by decide)

theorem fetch_ch_singapore_comm (d1 d2 : String) (s : Store) :
    fetch_switzerland_finma_data d1 (fetch_singapore_mas_data d2 s) =
      fetch_singapore_mas_data d2 (fetch_switzerland_finma_data d1 s) := by
  simp only [fetch_ch_eq_stamp]
  exact stampCountry_fetch_singapore_comm "CH" d1 d2 s (by decide)

theorem fetch_us_uk_comm (d1 d2 : String) (s : Store) :
    fetch_us_sec_data d1 (fetch_uk_fca_data d2 s) =
      fetch_uk_fca_data d2 (fetch_us_sec_data d1 s) := by
  simp only [fetch_us_eq_stamp, fetch_uk_eq_stamp]
  exact stampCountry_comm "US" "GB" d1 d2 s (by decide)

theorem fetch_us_ch_comm (d1 d2 : String) (s : Store) :
    fetch_us_sec_data d1 (fetch_switzerland_finma_data d2 s) =
      fetch_switzerland_finma_data d2 (fetch_us_sec_data d1 s) := by
  simp only [fetch_us_eq_stamp, fetch_ch_eq_stamp]
  exact stampCountry_comm "US" "CH" d1 d2 s (by decide)

theorem fetch_uk_ch_comm (d1 d2 : String) (s : Store) :
    fetch_uk_fca_data d1 (fetch_switzerland_finma_data d2 s) =
      fetch_switzerland_finma_data d2 (fetch_uk_fca_data d1 s) := by
  simp only [fetch_uk_eq_stamp, fetch_ch_eq_stamp]
  exact stampCountry_comm "GB" "CH" d1 d2 s (by decide)

/-- Running a list of updaters left to right over a store (the body of
`fetch_all_sources`, generalized to an arbitrary call order). -/
def runUpdaters (updaters : List (Store → Store)) (store : Store) : Store :=
  updaters.foldl (fun st f => f st) store

/-- The four per-country entry points of `RegulationFetcher`, called with the
same current date as in one `fetch_all_sources` invocation. -/
def theFourUpdaters (today : String) : List (Store → Store) :=
  [fetch_singapore_mas_data today, fetch_us_sec_data today,
   fetch_uk_fca_data today, fetch_switzerland_finma_data today]

theorem theFourUpdaters_pairwise_comm (today : String) :
    ∀ f ∈ theFourUpdaters today, ∀ g ∈ theFourUpdaters today, ∀ s : Store,
      g (f s) = f (g s) := by
  intro f hf g hg s
  simp only [theFourUpdaters, List.mem_cons, List.not_mem_nil, or_false] at hf hg
  rcases hf with hf | hf | hf | hf <;> rcases hg with hg | hg | hg | hg <;>
    subst hf <;> subst hg
  · rfl
  · exact fetch_us_singapore_comm today today s
  · exact fetch_uk_singapore_comm today today s
  · exact fetch_ch_singapore_comm today today s
  · exact (fetch_us_singapore_comm today today s).symm
  · rfl
  · exact (fetch_us_uk_comm today today s).symm
  · exact (fetch_us_ch_comm today today s).symm
  · exact (fetch_uk_singapore_comm today today s).symm
  · exact fetch_us_uk_comm today today s
  · rfl
  · exact (fetch_uk_ch_comm today today s).symm
  · exact (fetch_ch_singapore_comm today today s).symm
  · exact fetch_us_ch_comm today today s
  · exact fetch_uk_ch_comm today today s
  · rfl

/-- C9: for every starting store and any permutation of the four per-country
updaters (`fetch_singapore_mas_data`, `fetch_us_sec_data`, `fetch_uk_fca_data`,
`fetch_switzerland_finma_data`, all seeing the same current date), running
them in that order produces the same final store as `fetch_all_sources`,
which runs them in source order; each updater writes only its own country
key, so all 24 orders agree. -/
theorem c9_updater_order_insensitive (today : String) (s : Store)
    (l : List (Store → Store)) (hp : l.Perm (theFourUpdaters today)) :
    runUpdaters l s = fetch_all_sources today s := by
  have hcomm : ∀ x ∈ l, ∀ y ∈ l, ∀ z : Store,
      (fun (st : Store) (f : Store → Store) => f st)
        ((fun (st : Store) (f : Store → Store) => f st) z x) y =
      (fun (st : Store) (f : Store → Store) => f st)
        ((fun (st : Store) (f : Store → Store) => f st) z y) x := by
    intro x hx y hy z
    exact theFourUpdaters_pairwise_comm today x (hp.mem_iff.mp hx) y (hp.mem_iff.mp hy) z
  unfold runUpdaters
  rw [hp.foldl_eq' hcomm s]
  rfl

/-- Witness for C9 at a concrete reordering (US before Singapore) and the
empty store. -/
theorem c9_updater_order_insensitive_witness :
    ([fetch_us_sec_data "2026-10-12", fetch_singapore_mas_data "2026-10-12",
      fetch_uk_fca_data "2026-10-12", fetch_switzerland_finma_data "2026-10-12"]).Perm
        (theFourUpdaters "2026-10-12") ∧
    runUpdaters
      [fetch_us_sec_data "2026-10-12", fetch_singapore_mas_data "2026-10-12",
       fetch_uk_fca_data "2026-10-12", fetch_switzerland_finma_data "2026-10-12"] [] =
      fetch_all_sources "2026-10-12" [] :=
  ⟨List.Perm.swap (fetch_singapore_mas_data "2026-10-12") (fetch_us_sec_data "2026-10-12")
      [fetch_uk_fca_data "2026-10-12", fetch_switzerland_finma_data "2026-10-12"],
   c9_updater_order_insensitive "2026-10-12" []
      [fetch_us_sec_data "2026-10-12", fetch_singapore_mas_data "2026-10-12",
       fetch_uk_fca_data "2026-10-12", fetch_switzerland_finma_data "2026-10-12"]
      (List.Perm.swap (fetch_singapore_mas_data "2026-10-12") (fetch_us_sec_data "2026-10-12")
        [fetch_uk_fca_data "2026-10-12", fetch_switzerland_finma_data "2026-10-12"])⟩

/-- C10: after `fetch_all_sources`, the key set of the store is exactly the
original key set united with `SG`: no updater deletes a record, and the
Singapore updater guarantees `SG` is present afterwards. -/
theorem c10_fetch_all_keys (today : String) (s : Store) (k : String) :
    hasKey (fetch_all_sources today s) k = true ↔ (hasKey s k = true ∨ k = "SG") := by
  have h : hasKey (fetch_all_sources today s) k = (k == "SG" || hasKey s k) := by
    unfold fetch_all_sources
    rw [fetch_ch_eq_stamp, hasKey_stampCountry, fetch_uk_eq_stamp, hasKey_stampCountry,
        fetch_us_eq_stamp, hasKey_stampCountry, hasKey_fetch_singapore]
  rw [h]
  simp [or_comm]

/-- C4: a placeholder updater invoked while its country code has no record in
the store leaves the store exactly unchanged (and, being a total function of
the store, returns normally; in the source the missing-record case only
prints a notice). -/
theorem c4_placeholder_missing_country_no_op (today : String) (s : Store) :
    (hasKey s "US" = false → fetch_us_sec_data today s = s) ∧
    (hasKey s "GB" = false → fetch_uk_fca_data today s = s) ∧
    (hasKey s "CH" = false → fetch_switzerland_finma_data today s = s) := by
  refine ⟨fun h => ?_, fun h => ?_, fun h => ?_⟩
  · rw [fetch_us_eq_stamp]
    exact stampCountry_of_none _ _ _ (getKey_eq_none_of_hasKey_false _ _ h)
  · rw [fetch_uk_eq_stamp]
    exact stampCountry_of_none _ _ _ (getKey_eq_none_of_hasKey_false _ _ h)
  · rw [fetch_ch_eq_stamp]
    exact stampCountry_of_none _ _ _ (getKey_eq_none_of_hasKey_false _ _ h)

/-- Witness for C4 at the empty store, which has none of the three codes. -/
theorem c4_placeholder_missing_country_no_op_witness :
    (hasKey ([] : Store) "US" = false ∧ fetch_us_sec_data "2026-10-12" [] = []) ∧
    (hasKey ([] : Store) "GB" = false ∧ fetch_uk_fca_data "2026-10-12" [] = []) ∧
    (hasKey ([] : Store) "CH" = false ∧ fetch_switzerland_finma_data "2026-10-12" [] = []) :=
  ⟨⟨rfl, (c4_placeholder_missing_country_no_op "2026-10-12" []).1 rfl⟩,
   ⟨rfl, (c4_placeholder_missing_country_no_op "2026-10-12" []).2.1 rfl⟩,
   ⟨rfl, (c4_placeholder_missing_country_no_op "2026-10-12" []).2.2 rfl⟩⟩

/-- What the spec asserts a placeholder update does to a store `sold` holding
record `r` at `code`: the new store `snew` holds at `code` a record whose
`lastUpdated` is the current date and whose `autoFetched` is true, agreeing
with `r` on every other field; every other entry and the key list are
unchanged. -/
def stampedAsSpecified (today : String) (snew sold : Store) (code : String) (r : Obj) : Prop :=
  ∃ r', getKey snew code = some r' ∧
    getKey r' "lastUpdated" = some (Json.str today) ∧
    getKey r' "autoFetched" = some (Json.bool true) ∧
    (∀ f, f ≠ "lastUpdated" → f ≠ "autoFetched" → getKey r' f = getKey r f) ∧
    (∀ c, c ≠ code → getKey snew c = getKey sold c) ∧
    keysOf snew = keysOf sold

theorem stampCountry_spec (code today : String) (s : Store) (r : Obj)
    (h : getKey s code = some r) :
    stampedAsSpecified today (stampCountry code today s) s code r := by
  refine ⟨setKey (setKey r "lastUpdated" (Json.str today)) "autoFetched" (Json.bool true),
    ?_, ?_, ?_, ?_, ?_, keysOf_stampCountry _ _ _⟩
  · rw [stampCountry_of_some _ _ _ _ h, getKey_setKey_self]
  · rw [getKey_setKey_ne _ _ _ _ (by decide), getKey_setKey_self]
  · rw [getKey_setKey_self]
  · intro f h1 h2
    rw [getKey_setKey_ne _ _ _ _ h2, getKey_setKey_ne _ _ _ _ h1]
  · intro c hc
    exact getKey_stampCountry_ne _ _ _ _ hc

/-- C5: each placeholder updater, on a store that holds a record for its
country code, touches only that record, and within it only the `lastUpdated`
and `autoFetched` fields (set to the current date and `true`); every other
field of the record, every other entry of the store, and the key list are
unchanged. -/
theorem c5_placeholder_patches_only_stamp_fields (today : String) (s : Store) :
    (∀ r, getKey s "US" = some r →
      stampedAsSpecified today (fetch_us_sec_data today s) s "US" r) ∧
    (∀ r, getKey s "GB" = some r →
      stampedAsSpecified today (fetch_uk_fca_data today s) s "GB" r) ∧
    (∀ r, getKey s "CH" = some r →
      stampedAsSpecified today (fetch_switzerland_finma_data today s) s "CH" r) := by
  refine ⟨fun r h => ?_, fun r h => ?_, fun r h => ?_⟩
  · rw [fetch_us_eq_stamp]
    exact stampCountry_spec "US" today s r h
  · rw [fetch_uk_eq_stamp]
    exact stampCountry_spec "GB" today s r h
  · rw [fetch_ch_eq_stamp]
    exact stampCountry_spec "CH" today s r h

/-- A store holding records for all three placeholder countries, to witness
C5. -/
def c5Store : Store :=
  [ ("US", [("overview", Json.str "US overview")]),
    ("GB", [("overview", Json.str "UK overview")]),
    ("CH", [("overview", Json.str "Swiss overview")]) ]

/-- Witness for C5 at `c5Store`. -/
theorem c5_placeholder_patches_only_stamp_fields_witness :
    stampedAsSpecified "2026-10-12" (fetch_us_sec_data "2026-10-12" c5Store) c5Store "US"
      [("overview", Json.str "US overview")] ∧
    stampedAsSpecified "2026-10-12" (fetch_uk_fca_data "2026-10-12" c5Store) c5Store "GB"
      [("overview", Json.str "UK overview")] ∧
    stampedAsSpecified "2026-10-12" (fetch_switzerland_finma_data "2026-10-12" c5Store) c5Store "CH"
      [("overview", Json.str "Swiss overview")] :=
  ⟨(c5_placeholder_patches_only_stamp_fields "2026-10-12" c5Store).1 _ rfl,
   (c5_placeholder_patches_only_stamp_fields "2026-10-12" c5Store).2.1 _ rfl,
   (c5_placeholder_patches_only_stamp_fields "2026-10-12" c5Store).2.2 _ rfl⟩

/-- What the spec asserts about the seven structured sequence fields of the
freshly written Singapore record: each is present and a non-empty JSON
sequence. -/
def sevenFieldsPopulated (sg : Obj) : Prop :=
  (∃ l, getKey sg "regulations" = some (Json.arr l) ∧ l ≠ []) ∧
  (∃ l, getKey sg "requirements" = some (Json.arr l) ∧ l ≠ []) ∧
  (∃ l, getKey sg "authorities" = some (Json.arr l) ∧ l ≠ []) ∧
  (∃ l, getKey sg "sources" = some (Json.arr l) ∧ l ≠ []) ∧
  (∃ l, getKey sg "whitepapers" = some (Json.arr l) ∧ l ≠ []) ∧
  (∃ l, getKey sg "consultationPapers" = some (Json.arr l) ∧ l ≠ []) ∧
  (∃ l, getKey sg "legalFramework" = some (Json.arr l) ∧ l ≠ [])

theorem sgComprehensive_fields_populated (today : String) (b : Obj) :
    sevenFieldsPopulated (sgComprehensive today b) := by
  refine ⟨⟨_, by rw [getKey_sgComprehensive]; rfl, List.cons_ne_nil _ _⟩,
          ⟨_, by rw [getKey_sgComprehensive]; rfl, List.cons_ne_nil _ _⟩,
          ⟨_, by rw [getKey_sgComprehensive]; rfl, List.cons_ne_nil _ _⟩,
          ⟨_, by rw [getKey_sgComprehensive]; rfl, List.cons_ne_nil _ _⟩,
          ⟨_, by rw [getKey_sgComprehensive]; rfl, List.cons_ne_nil _ _⟩,
          ⟨_, by rw [getKey_sgComprehensive]; rfl, List.cons_ne_nil _ _⟩,
          ⟨_, by rw [getKey_sgComprehensive]; rfl, List.cons_ne_nil _ _⟩⟩

/-- C1: on a store whose key set is exactly `US`, the Singapore comprehensive
updater leaves the `US` entry exactly as it was and adds an `SG` record whose
seven structured sequence fields are all populated and whose `dataVersion`
is `2.0`. -/
theorem c1_singapore_update_on_us_only_store (today : String) (s : Store)
    (husOnly : keysOf s = ["US"]) :
    getKey (fetch_singapore_mas_data today s) "US" = getKey s "US" ∧
    ∃ sg, getKey (fetch_singapore_mas_data today s) "SG" = some sg ∧
      sevenFieldsPopulated sg ∧
      getKey sg "dataVersion" = some (Json.str "2.0") := by
  have hsg : hasKey s "SG" = false := by
    cases hb : hasKey s "SG" with
    | false => rfl
    | true =>
      exfalso
      have hmem := (hasKey_iff_mem_keysOf s "SG").mp hb
      rw [husOnly] at hmem
      simp at hmem
  have hp : sgPrior s = sgInit := by
    unfold sgPrior
    rw [hsg]
    simp
  constructor
  · exact getKey_fetch_singapore_ne today s "US" (by decide)
  · refine ⟨sgComprehensive today sgInit, ?_,
      sgComprehensive_fields_populated today sgInit, ?_⟩
    · rw [fetch_singapore_eq, hp, getKey_setKey_self]
    · rw [getKey_sgComprehensive]
      rfl

/-- A store holding only a minimal `US` record, to witness C1. -/
def c1Store : Store := [("US", [("overview", Json.str "US overview")])]

/-- Witness for C1 at `c1Store`. -/
theorem c1_singapore_update_on_us_only_store_witness :
    keysOf c1Store = ["US"] ∧
    (getKey (fetch_singapore_mas_data "2026-10-12" c1Store) "US" = getKey c1Store "US" ∧
     ∃ sg, getKey (fetch_singapore_mas_data "2026-10-12" c1Store) "SG" = some sg ∧
       sevenFieldsPopulated sg ∧
       getKey sg "dataVersion" = some (Json.str "2.0")) :=
  ⟨rfl, c1_singapore_update_on_us_only_store "2026-10-12" c1Store rfl⟩

/-- C2: running the comprehensive Singapore updater twice in succession
(possibly on different dates) yields an `SG` record identical to the one
produced by the first run, once the `lastUpdated` field is set aside. -/
theorem c2_comprehensive_updater_idempotent (s : Store) (d1 d2 : String) :
    eraseKey (sgRecordOf (fetch_singapore_mas_data d2 (fetch_singapore_mas_data d1 s)))
        "lastUpdated" =
      eraseKey (sgRecordOf (fetch_singapore_mas_data d1 s)) "lastUpdated" := by
  have hk : hasKey (fetch_singapore_mas_data d1 s) "SG" = true := by
    rw [hasKey_fetch_singapore]
    simp
  have hg : getKey (fetch_singapore_mas_data d1 s) "SG" =
      some (sgComprehensive d1 (sgPrior s)) := by
    rw [fetch_singapore_eq, getKey_setKey_self]
  have hprior1 : sgPrior (fetch_singapore_mas_data d1 s) = sgComprehensive d1 (sgPrior s) := by
    unfold sgPrior
    rw [hk, hg]
    simp only [if_true]
    rfl
  have hstable : sgComprehensive d2 (sgComprehensive d1 (sgPrior s)) =
      setKey (sgComprehensive d1 (sgPrior s)) "lastUpdated" (Json.str d2) := by
    apply sgComprehensive_stable <;> simp [getKey_sgComprehensive]
  rw [sgRecordOf_fetch_singapore d2 _, hprior1, hstable, eraseKey_setKey,
      sgRecordOf_fetch_singapore d1 s]

/-- The full-replacement behaviour the spec ascribes to the comprehensive
updater: after the call, the `SG` record carries the knowledge-base value in
each of the eleven assigned fields, while fields outside the assigned set and
entries for other countries are exactly those held before the call. -/
def comprehensiveOverwriteSpec (today : String) (s : Store) (prior : Obj) : Prop :=
  getKey (sgRecordOf (fetch_singapore_mas_data today s)) "overview" = some sgOverview ∧
  getKey (sgRecordOf (fetch_singapore_mas_data today s)) "regulations" = some sgRegulations ∧
  getKey (sgRecordOf (fetch_singapore_mas_data today s)) "whitepapers" = some sgWhitepapers ∧
  getKey (sgRecordOf (fetch_singapore_mas_data today s)) "consultationPapers" = some sgConsultationPapers ∧
  getKey (sgRecordOf (fetch_singapore_mas_data today s)) "legalFramework" = some sgLegalFramework ∧
  getKey (sgRecordOf (fetch_singapore_mas_data today s)) "requirements" = some sgRequirements ∧
  getKey (sgRecordOf (fetch_singapore_mas_data today s)) "authorities" = some sgAuthorities ∧
  getKey (sgRecordOf (fetch_singapore_mas_data today s)) "sources" = some sgSources ∧
  getKey (sgRecordOf (fetch_singapore_mas_data today s)) "lastUpdated" = some (Json.str today) ∧
  getKey (sgRecordOf (fetch_singapore_mas_data today s)) "autoFetched" = some (Json.bool true) ∧
  getKey (sgRecordOf (fetch_singapore_mas_data today s)) "dataVersion" = some (Json.str "2.0") ∧
  (∀ f, f ∉ (["overview", "regulations", "whitepapers", "consultationPapers",
      "legalFramework", "requirements", "authorities", "sources",
      "lastUpdated", "autoFetched", "dataVersion"] : List String) →
    getKey (sgRecordOf (fetch_singapore_mas_data today s)) f = getKey prior f) ∧
  (∀ c, c ≠ "SG" → getKey (fetch_singapore_mas_data today s) c = getKey s c)

/-- A store whose `SG` record holds one field outside the assigned set, to
exhibit the carried-over field and to witness the amended C3. -/
def c3Store : Store := [("SG", [("customNote", Json.str "keep")])]

/-- C3 counterexample: on `c3Store`, the field `customNote` of the prior `SG`
record survives the comprehensive update verbatim, and the resulting record
differs from the one produced from a store whose prior `SG` record is empty —
so the new record is not determined by the knowledge base and date alone. -/
theorem c3_full_replacement_counterexample :
    getKey (sgRecordOf (fetch_singapore_mas_data "2026-10-12" c3Store)) "customNote" =
      some (Json.str "keep") ∧
    sgRecordOf (fetch_singapore_mas_data "2026-10-12" c3Store) ≠
      sgRecordOf (fetch_singapore_mas_data "2026-10-12" [("SG", [])]) := by
  constructor
  · rfl
  · intro hEq
    have h1 : getKey (sgRecordOf (fetch_singapore_mas_data "2026-10-12" c3Store))
        "customNote" = some (Json.str "keep") := rfl
    have h2 : getKey (sgRecordOf (fetch_singapore_mas_data "2026-10-12"
        [("SG", ([] : Obj))])) "customNote" = none := rfl
    rw [hEq, h2] at h1
    exact Option.noConfusion h1

/-- C3 (amended): on a store already holding an `SG` record, the comprehensive
updater overwrites exactly the eleven assigned fields (`overview`, the seven
structured sequences, `lastUpdated`, `autoFetched`, `dataVersion`) with values
determined by the knowledge base and the current date; any field of the prior
record outside that set is carried over unchanged, and other entries of the
store are untouched. -/
theorem c3_comprehensive_overwrites_assigned_fields (today : String) (s : Store)
    (prior : Obj) (h : getKey s "SG" = some prior) :
    comprehensiveOverwriteSpec today s prior := by
  have hk : hasKey s "SG" = true := by simp [hasKey, h]
  have hprior : sgPrior s = prior := by
    unfold sgPrior
    rw [hk, h]
    simp
  unfold comprehensiveOverwriteSpec
  rw [sgRecordOf_fetch_singapore, hprior]
  refine ⟨by rw [getKey_sgComprehensive]; rfl, by rw [getKey_sgComprehensive]; rfl,
          by rw [getKey_sgComprehensive]; rfl, by rw [getKey_sgComprehensive]; rfl,
          by rw [getKey_sgComprehensive]; rfl, by rw [getKey_sgComprehensive]; rfl,
          by rw [getKey_sgComprehensive]; rfl, by rw [getKey_sgComprehensive]; rfl,
          by rw [getKey_sgComprehensive]; rfl, by rw [getKey_sgComprehensive]; rfl,
          by rw [getKey_sgComprehensive]; rfl, ?_, ?_⟩
  · intro f hf
    simp only [List.mem_cons, List.not_mem_nil, or_false] at hf
    push_neg at hf
    obtain ⟨h1, h2, h3, h4, h5, h6, h7, h8, h9, h10, h11⟩ := hf
    rw [getKey_sgComprehensive]
    simp [h1, h2, h3, h4, h5, h6, h7, h8, h9, h10, h11]
  · intro c hc
    exact getKey_fetch_singapore_ne today s c hc

/-- Witness for the amended C3 at `c3Store`. -/
theorem c3_comprehensive_overwrites_assigned_fields_witness :
    getKey c3Store "SG" = some [("customNote", Json.str "keep")] ∧
    comprehensiveOverwriteSpec "2026-10-12" c3Store [("customNote", Json.str "keep")] :=
  ⟨rfl, c3_comprehensive_overwrites_assigned_fields "2026-10-12" c3Store
     [("customNote", Json.str "keep")] rfl⟩

/-- C6: the metadata summarizer sets `totalCountries` to the number of keys of
the country mapping read from the aggregate file, and to `0` when that file is
absent — in which case it still completes and produces a metadata object (the
embedding is a total function; in the source the absent-file branch simply
skips the read).  The `Nodup` hypothesis records that an aggregate mapping,
being a parsed JSON object handed to Python as a dict, has pairwise distinct
keys, so its entry count is its key count. -/
theorem c6_metadata_counts_countries (today : String) (meta : Option Obj) (S : Store)
    (_hnd : (keysOf S).Nodup) :
    getKey (update_metadata today meta (some S)) "totalCountries" =
      some (Json.num ((keysOf S).length : Int)) ∧
    getKey (update_metadata today meta none) "totalCountries" = some (Json.num 0) := by
  have hlen : (keysOf S).length = S.length := by simp [keysOf]
  constructor
  · have e : update_metadata today meta (some S) =
        setKey (setKey (setKey (match meta with | some m => m | none => [])
            "lastUpdated" (Json.str today))
          "totalCountries" (Json.num (Int.ofNat S.length)))
          "dataSource" (Json.str "Automated periodic updates and manual curation") := rfl
    rw [e, getKey_setKey_ne _ "dataSource" "totalCountries" _ (by decide),
        getKey_setKey_self, hlen]
    rfl
  · have e : update_metadata today meta none =
        setKey (setKey (setKey (match meta with | some m => m | none => [])
            "lastUpdated" (Json.str today))
          "totalCountries" (Json.num (Int.ofNat 0)))
          "dataSource" (Json.str "Automated periodic updates and manual curation") := rfl
    rw [e, getKey_setKey_ne _ "dataSource" "totalCountries" _ (by decide),
        getKey_setKey_self]
    rfl

/-- A two-country mapping to witness C6. -/
def c6Store : Store := [("SG", []), ("US", [])]

/-- Witness for C6 at `c6Store`. -/
theorem c6_metadata_counts_countries_witness :
    (keysOf c6Store).Nodup ∧
    (getKey (update_metadata "2026-10-12" none (some c6Store)) "totalCountries" =
       some (Json.num 2) ∧
     getKey (update_metadata "2026-10-12" none none) "totalCountries" =
       some (Json.num 0)) :=
  ⟨by decide, c6_metadata_counts_countries "2026-10-12" none c6Store (by decide)⟩

/-- C7: on a pre-existing metadata object, the summarizer overwrites exactly
`lastUpdated` (current date), `totalCountries` (recomputed count) and
`dataSource` (the fixed provenance string, regardless of its previous value),
and leaves every other pre-existing metadata key bound to its previous
value. -/
theorem c7_metadata_overwrites_three_fields (today : String) (meta : Obj)
    (countries : Option Store) :
    getKey (update_metadata today (some meta) countries) "lastUpdated" =
      some (Json.str today) ∧
    getKey (update_metadata today (some meta) countries) "totalCountries" =
      some (Json.num (Int.ofNat (match countries with | some S => S.length | none => 0))) ∧
    getKey (update_metadata today (some meta) countries) "dataSource" =
      some (Json.str "Automated periodic updates and manual curation") ∧
    ∀ k, k ≠ "lastUpdated" → k ≠ "totalCountries" → k ≠ "dataSource" →
      getKey (update_metadata today (some meta) countries) k = getKey meta k := by
  have e : update_metadata today (some meta) countries =
      setKey (setKey (setKey meta "lastUpdated" (Json.str today))
        "totalCountries"
          (Json.num (Int.ofNat (match countries with | some S => S.length | none => 0))))
        "dataSource" (Json.str "Automated periodic updates and manual curation") := rfl
  refine ⟨?_, ?_, ?_, ?_⟩
  · rw [e, getKey_setKey_ne _ "dataSource" "lastUpdated" _ (by decide),
        getKey_setKey_ne _ "totalCountries" "lastUpdated" _ (by decide),
        getKey_setKey_self]
  · rw [e, getKey_setKey_ne _ "dataSource" "totalCountries" _ (by decide),
        getKey_setKey_self]
  · rw [e, getKey_setKey_self]
  · intro k h1 h2 h3
    rw [e, getKey_setKey_ne _ "dataSource" k _ h3,
        getKey_setKey_ne _ "totalCountries" k _ h2,
        getKey_setKey_ne _ "lastUpdated" k _ h1]

/-- A metadata object with an unknown field and a stale `dataSource`, to
witness C7. -/
def c7Meta : Obj := [("note", Json.str "n"), ("dataSource", Json.str "old")]

/-- Witness for C7 at `c7Meta` with a one-country mapping. -/
theorem c7_metadata_overwrites_three_fields_witness :
    getKey (update_metadata "2026-10-12" (some c7Meta) (some [("SG", [])])) "lastUpdated" =
      some (Json.str "2026-10-12") ∧
    getKey (update_metadata "2026-10-12" (some c7Meta) (some [("SG", [])])) "totalCountries" =
      some (Json.num 1) ∧
    getKey (update_metadata "2026-10-12" (some c7Meta) (some [("SG", [])])) "dataSource" =
      some (Json.str "Automated periodic updates and manual curation") ∧
    getKey (update_metadata "2026-10-12" (some c7Meta) (some [("SG", [])])) "note" =
      getKey c7Meta "note" :=
  ⟨(c7_metadata_overwrites_three_fields "2026-10-12" c7Meta (some [("SG", [])])).1,
   (c7_metadata_overwrites_three_fields "2026-10-12" c7Meta (some [("SG", [])])).2.1,
   (c7_metadata_overwrites_three_fields "2026-10-12" c7Meta (some [("SG", [])])).2.2.1,
   (c7_metadata_overwrites_three_fields "2026-10-12" c7Meta (some [("SG", [])])).2.2.2
     "note" (by decide) (by decide) (by decide)⟩

/-!
Serialization.  `save_data` and `load_existing_data` call `json.dump(...,
indent=2, ensure_ascii=False)` and `json.load` from the Python standard
library, which is not part of this repository.  The codec below is modelled
from the spec (sections 4.1, 6 and 8): pretty-printed two-space-indented
UTF-8 JSON with non-ASCII characters preserved verbatim, parsed back
losslessly.  Deviations, all outside the output of the save path: JSON
floats are rejected rather than parsed, duplicate object keys are kept in
order rather than collapsed to the last, and lone `\u` surrogate halves or
raw control characters inside strings are handled leniently.
-/

def lbrace : Char := Char.ofNat 123

def rbrace : Char := Char.ofNat 125

def spaces (n : Nat) : List Char := List.replicate n ' '

def hexDigitChar (n : Nat) : Char :=
  if n < 10 then Char.ofNat (48 + n) else Char.ofNat (87 + n)

/-- The escaping `json.dump` applies inside string literals when
`ensure_ascii=False`: only the quote, the backslash and control characters
below `0x20` are escaped; everything else (non-ASCII included) is verbatim. -/
def escapeChar (c : Char) : List Char :=
  if c = '"' then ['\\', '"']
  else if c = '\\' then ['\\', '\\']
  else if c = '\n' then ['\\', 'n']
  else if c = '\t' then ['\\', 't']
  else if c = '\r' then ['\\', 'r']
  else if c = Char.ofNat 8 then ['\\', 'b']
  else if c = Char.ofNat 12 then ['\\', 'f']
  else if c.toNat < 32 then
    ['\\', 'u', '0', '0', hexDigitChar (c.toNat / 16), hexDigitChar (c.toNat % 16)]
  else [c]

def escapeList (cs : List Char) : List Char := (cs.map escapeChar).flatten

def renderString (s : String) : List Char := '"' :: (escapeList s.data ++ ['"'])

def digitChar (n : Nat) : Char := Char.ofNat (48 + n)

def natToChars (n : Nat) : List Char :=
  if n < 10 then [digitChar n] else natToChars (n / 10) ++ [digitChar (n % 10)]
termination_by n
decreasing_by
  exact Nat.div_lt_self (by omega) (by omega)

def intToChars (i : Int) : List Char :=
  if i < 0 then '-' :: natToChars i.natAbs else natToChars i.toNat

mutual
def renderAt (ind : Nat) : Json → List Char
  | Json.null => ['n', 'u', 'l', 'l']
  | Json.bool true => ['t', 'r', 'u', 'e']
  | Json.bool false => ['f', 'a', 'l', 's', 'e']
  | Json.num i => intToChars i
  | Json.str s => renderString s
  | Json.arr [] => ['[', ']']
  | Json.arr (x :: xs) =>
      '[' :: '\n' :: (spaces (ind + 2) ++ renderAt (ind + 2) x ++ renderElems (ind + 2) xs
        ++ '\n' :: (spaces ind ++ [']']))
  | Json.obj [] => [lbrace, rbrace]
  | Json.obj ((k, v) :: ms) =>
      lbrace :: '\n' :: (spaces (ind + 2) ++ renderString k ++ ':' :: ' ' ::
        (renderAt (ind + 2) v ++ renderMembers (ind + 2) ms ++ '\n' :: (spaces ind ++ [rbrace])))
def renderElems (ind : Nat) : List Json → List Char
  | [] => []
  | x :: xs => ',' :: '\n' :: (spaces ind ++ renderAt ind x ++ renderElems ind xs)
def renderMembers (ind : Nat) : List (String × Json) → List Char
  | [] => []
  | (k, v) :: ms =>
      ',' :: '\n' :: (spaces ind ++ renderString k ++ ':' :: ' ' ::
        (renderAt ind v ++ renderMembers ind ms))
end

def isWs (c : Char) : Bool := c = ' ' || c = '\n' || c = '\t' || c = '\r'

def skipWs : List Char → List Char
  | [] => []
  | c :: rest => if isWs c then skipWs rest else c :: rest

def isDigitChar (c : Char) : Bool := 48 ≤ c.toNat && c.toNat ≤ 57

def parseHexDigit (c : Char) : Option Nat :=
  if 48 ≤ c.toNat ∧ c.toNat ≤ 57 then some (c.toNat - 48)
  else if 97 ≤ c.toNat ∧ c.toNat ≤ 102 then some (c.toNat - 87)
  else if 65 ≤ c.toNat ∧ c.toNat ≤ 70 then some (c.toNat - 55)
  else none

/-- String-literal body scanner: consumes up to and including the closing
quote, unescaping as it goes, and returns the decoded characters with the
remaining input.  The fuel argument only bounds the recursion; callers pass
the input length, which always suffices since every step consumes input. -/
def parseStringBody : Nat → List Char → Option (List Char × List Char)
  | 0, _ => none
  | _ + 1, [] => none
  | fuel + 1, c :: rest =>
    if c = '"' then some ([], rest)
    else if c = '\\' then
      match rest with
      | [] => none
      | e :: rest2 =>
        if e = '"' then
          match parseStringBody fuel rest2 with
          | some (cs, r) => some ('"' :: cs, r)
          | none => none
        else if e = '\\' then
          match parseStringBody fuel rest2 with
          | some (cs, r) => some ('\\' :: cs, r)
          | none => none
        else if e = '/' then
          match parseStringBody fuel rest2 with
          | some (cs, r) => some ('/' :: cs, r)
          | none => none
        else if e = 'b' then
          match parseStringBody fuel rest2 with
          | some (cs, r) => some (Char.ofNat 8 :: cs, r)
          | none => none
        else if e = 'f' then
          match parseStringBody fuel rest2 with
          | some (cs, r) => some (Char.ofNat 12 :: cs, r)
          | none => none
        else if e = 'n' then
          match parseStringBody fuel rest2 with
          | some (cs, r) => some ('\n' :: cs, r)
          | none => none
        else if e = 'r' then
          match parseStringBody fuel rest2 with
          | some (cs, r) => some ('\r' :: cs, r)
          | none => none
        else if e = 't' then
          match parseStringBody fuel rest2 with
          | some (cs, r) => some ('\t' :: cs, r)
          | none => none
        else if e = 'u' then
          match rest2 with
          | h1 :: h2 :: h3 :: h4 :: rest3 =>
            match parseHexDigit h1, parseHexDigit h2, parseHexDigit h3, parseHexDigit h4 with
            | some a, some b, some c2, some d2 =>
              match parseStringBody fuel rest3 with
              | some (cs, r) => some (Char.ofNat (((a * 16 + b) * 16 + c2) * 16 + d2) :: cs, r)
              | none => none
            | _, _, _, _ => none
          | _ => none
        else none
    else
      match parseStringBody fuel rest with
      | some (cs, r) => some (c :: cs, r)
      | none => none

def parseDigits (acc : Nat) (s : List Char) : Nat × List Char :=
  match s with
  | [] => (acc, [])
  | c :: rest =>
    if isDigitChar c then parseDigits (acc * 10 + (c.toNat - 48)) rest else (acc, c :: rest)

def parseNumberNat (s : List Char) : Option (Nat × List Char) :=
  match s with
  | [] => none
  | c :: _ =>
    if isDigitChar c then
      let p := parseDigits 0 s
      match p.2 with
      | [] => some p
      | d :: _ => if d = '.' ∨ d = 'e' ∨ d = 'E' then none else some p
    else none

def parseNumber (s : List Char) : Option (Int × List Char) :=
  match s with
  | [] => none
  | c :: rest =>
    if c = '-' then
      match parseNumberNat rest with
      | some (n, r) => some (-(n : Int), r)
      | none => none
    else
      match parseNumberNat (c :: rest) with
      | some (n, r) => some ((n : Int), r)
      | none => none

mutual
def parseValue : Nat → List Char → Option (Json × List Char)
  | 0, _ => none
  | fuel + 1, s =>
    match skipWs s with
    | [] => none
    | c :: rest =>
      if c = 'n' then
        match rest with
        | 'u' :: 'l' :: 'l' :: r => some (Json.null, r)
        | _ => none
      else if c = 't' then
        match rest with
        | 'r' :: 'u' :: 'e' :: r => some (Json.bool true, r)
        | _ => none
      else if c = 'f' then
        match rest with
        | 'a' :: 'l' :: 's' :: 'e' :: r => some (Json.bool false, r)
        | _ => none
      else if c = '"' then
        match parseStringBody rest.length rest with
        | some (cs, r) => some (Json.str (String.mk cs), r)
        | none => none
      else if c = '[' then parseElems fuel rest
      else if c = lbrace then parseMembers fuel rest
      else if c = '-' ∨ isDigitChar c = true then
        match parseNumber (c :: rest) with
        | some (n, r) => some (Json.num n, r)
        | none => none
      else none
def parseElems : Nat → List Char → Option (Json × List Char)
  | 0, _ => none
  | fuel + 1, s =>
    match skipWs s with
    | [] => none
    | c :: rest =>
      if c = ']' then some (Json.arr [], rest)
      else
        match parseValue fuel (c :: rest) with
        | some (v, r) =>
          match parseElemsTail fuel r with
          | some (vs, r2) => some (Json.arr (v :: vs), r2)
          | none => none
        | none => none
def parseElemsTail : Nat → List Char → Option (List Json × List Char)
  | 0, _ => none
  | fuel + 1, s =>
    match skipWs s with
    | [] => none
    | c :: rest =>
      if c = ']' then some ([], rest)
      else if c = ',' then
        match parseValue fuel rest with
        | some (v, r) =>
          match parseElemsTail fuel r with
          | some (vs, r2) => some (v :: vs, r2)
          | none => none
        | none => none
      else none
def parseMembers : Nat → List Char → Option (Json × List Char)
  | 0, _ => none
  | fuel + 1, s =>
    match skipWs s with
    | [] => none
    | c :: rest =>
      if c = rbrace then some (Json.obj [], rest)
      else if c = '"' then
        match parseStringBody rest.length rest with
        | some (k, r1) =>
          match skipWs r1 with
          | ':' :: r2 =>
            match parseValue fuel r2 with
            | some (v, r3) =>
              match parseMembersTail fuel r3 with
              | some (ms, r4) => some (Json.obj ((String.mk k, v) :: ms), r4)
              | none => none
            | none => none
          | _ => none
        | none => none
      else none
def parseMembersTail : Nat → List Char → Option (List (String × Json) × List Char)
  | 0, _ => none
  | fuel + 1, s =>
    match skipWs s with
    | [] => none
    | c :: rest =>
      if c = rbrace then some ([], rest)
      else if c = ',' then
        match skipWs rest with
        | [] => none
        | c2 :: rest2 =>
          if c2 = '"' then
            match parseStringBody rest2.length rest2 with
            | some (k, r1) =>
              match skipWs r1 with
              | ':' :: r2 =>
                match parseValue fuel r2 with
                | some (v, r3) =>
                  match parseMembersTail fuel r3 with
                  | some (ms, r4) => some ((String.mk k, v) :: ms, r4)
                  | none => none
                | none => none
              | _ => none
            | none => none
          else none
      else none
end

/-- One JSON document: a single value, surrounded by optional whitespace,
with nothing after it — the contract of `json.load`.  The fuel bound
`length + 1` suffices because the parser consumes input as it recurses. -/
def parseTop (s : List Char) : Option Json :=
  match parseValue (s.length + 1) s with
  | some (v, rest) => if skipWs rest = [] then some v else none
  | none => none

/-- The aggregate store as the JSON document `json.dump` receives in
`save_data`. -/
def storeToJson (store : Store) : Json :=
  Json.obj (store.map (fun kv => (kv.1, Json.obj kv.2)))

/-- `RegulationFetcher.save_data` (fetch_regulations.py, lines 322-329): the
text written to `data/countries.json`. -/
def save_data (store : Store) : String :=
  String.mk (renderAt 0 (storeToJson store))

/-- `RegulationFetcher.load_existing_data` (lines 26-32): `none` input models
an absent aggregate file (the store stays empty); a present file is parsed as
one JSON document, `none` output modelling the `json.load` parse error. -/
def load_existing_data (file : Option String) : Option Json :=
  match file with
  | none => some (Json.obj [])
  | some text => parseTop text.data

/-- `RegulationFetcher.generate_individual_country_files` (lines 331-337):
the per-country files written under `data/countries/`, as pairs of country
code and file text. -/
def generate_individual_country_files (store : Store) : List (String × String) :=
  store.map (fun kv => (kv.1, String.mk (renderAt 0 (Json.obj kv.2))))

/-- Reading a parsed aggregate document back into a store of records
(typed view of `self.countries_data` after `load_existing_data`). -/
def recordFields : List (String × Json) → Option Store
  | [] => some []
  | (k, Json.obj r) :: rest =>
    match recordFields rest with
    | some st => some ((k, r) :: st)
    | none => none
  | _ => none

def jsonToStore : Json → Option Store
  | Json.obj ms => recordFields ms
  | _ => none

def allDistinct : List String → Bool
  | [] => true
  | k :: ks => !ks.contains k && allDistinct ks

mutual
/-- Well-formedness of a JSON value as the image of Python data: every
object level has pairwise distinct keys (a Python dict cannot hold two equal
keys). -/
def wfJson : Json → Bool
  | Json.null => true
  | Json.bool _ => true
  | Json.num _ => true
  | Json.str _ => true
  | Json.arr l => wfList l
  | Json.obj ms => allDistinct (ms.map Prod.fst) && wfMembers ms
def wfList : List Json → Bool
  | [] => true
  | x :: xs => wfJson x && wfList xs
def wfMembers : List (String × Json) → Bool
  | [] => true
  | (_, v) :: ms => wfJson v && wfMembers ms
end

def wfStore (store : Store) : Bool := wfJson (storeToJson store)

mutual
/-- Fuel adequate to parse a value: one unit per node and list step. -/
def jsize : Json → Nat
  | Json.null => 1
  | Json.bool _ => 1
  | Json.num _ => 1
  | Json.str _ => 1
  | Json.arr l => 1 + lsize l
  | Json.obj ms => 1 + msize ms
def lsize : List Json → Nat
  | [] => 1
  | x :: xs => 1 + jsize x + lsize xs
def msize : List (String × Json) → Nat
  | [] => 1
  | (_, v) :: ms => 1 + jsize v + msize ms
end

theorem skipWs_cons_of_ws (c : Char) (l : List Char) (h : isWs c = true) :
    skipWs (c :: l) = skipWs l := by
  simp [skipWs, h]

theorem skipWs_cons_of_not_ws (c : Char) (l : List Char) (h : isWs c = false) :
    skipWs (c :: l) = c :: l := by
  simp [skipWs, h]

theorem skipWs_append_of_ws (pre l : List Char) (h : ∀ c ∈ pre, isWs c = true) :
    skipWs (pre ++ l) = skipWs l := by
  induction pre with
  | nil => rfl
  | cons c rest ih =>
    rw [List.cons_append, skipWs_cons_of_ws c _ (h c (List.mem_cons_self c rest))]
    exact ih (fun d hd => h d (List.mem_cons_of_mem c hd))

theorem skipWs_spaces_append (n : Nat) (l : List Char) :
    skipWs (spaces n ++ l) = skipWs l := by
  apply skipWs_append_of_ws
  intro c hc
  rw [spaces] at hc
  rw [List.eq_of_mem_replicate hc]
  rfl

theorem parseValue_congr (fuel : Nat) {s1 s2 : List Char} (h : skipWs s1 = skipWs s2) :
    parseValue fuel s1 = parseValue fuel s2 := by
  cases fuel with
  | zero => rfl
  | succ f =>
    show (match skipWs s1 with
      | [] => none
      | c :: rest =>
        if c = 'n' then
          match rest with
          | 'u' :: 'l' :: 'l' :: r => some (Json.null, r)
          | _ => none
        else if c = 't' then
          match rest with
          | 'r' :: 'u' :: 'e' :: r => some (Json.bool true, r)
          | _ => none
        else if c = 'f' then
          match rest with
          | 'a' :: 'l' :: 's' :: 'e' :: r => some (Json.bool false, r)
          | _ => none
        else if c = '"' then
          match parseStringBody rest.length rest with
          | some (cs, r) => some (Json.str (String.mk cs), r)
          | none => none
        else if c = '[' then parseElems f rest
        else if c = lbrace then parseMembers f rest
        else if c = '-' ∨ isDigitChar c = true then
          match parseNumber (c :: rest) with
          | some (n, r) => some (Json.num n, r)
          | none => none
        else none) =
      (match skipWs s2 with
      | [] => none
      | c :: rest =>
        if c = 'n' then
          match rest with
          | 'u' :: 'l' :: 'l' :: r => some (Json.null, r)
          | _ => none
        else if c = 't' then
          match rest with
          | 'r' :: 'u' :: 'e' :: r => some (Json.bool true, r)
          | _ => none
        else if c = 'f' then
          match rest with
          | 'a' :: 'l' :: 's' :: 'e' :: r => some (Json.bool false, r)
          | _ => none
        else if c = '"' then
          match parseStringBody rest.length rest with
          | some (cs, r) => some (Json.str (String.mk cs), r)
          | none => none
        else if c = '[' then parseElems f rest
        else if c = lbrace then parseMembers f rest
        else if c = '-' ∨ isDigitChar c = true then
          match parseNumber (c :: rest) with
          | some (n, r) => some (Json.num n, r)
          | none => none
        else none)
    rw [h]

theorem hexDigitChar_roundtrip : ∀ k, k < 16 → parseHexDigit (hexDigitChar k) = some k := by
  decide

theorem escapeChar_length_pos (c : Char) : 1 ≤ (escapeChar c).length := by
  unfold escapeChar
  repeat' split
  all_goals simp

theorem escapeList_length_ge (cs : List Char) : cs.length ≤ (escapeList cs).length := by
  induction cs with
  | nil => simp [escapeList]
  | cons c cs ih =>
    have h : escapeList (c :: cs) = escapeChar c ++ escapeList cs := by simp [escapeList]
    rw [h, List.length_append, List.length_cons]
    have := escapeChar_length_pos c
    omega

theorem parseStringBody_escape (cs : List Char) : ∀ (fuel : Nat) (rest : List Char),
    cs.length < fuel →
    parseStringBody fuel (escapeList cs ++ '"' :: rest) = some (cs, rest) := by
  induction cs with
  | nil =>
    intro fuel rest hf
    obtain ⟨g, rfl⟩ : ∃ g, fuel = g + 1 := ⟨fuel - 1, by omega⟩
    simp [escapeList, parseStringBody]
  | cons c cs ih =>
    intro fuel rest hf
    obtain ⟨g, rfl⟩ : ∃ g, fuel = g + 1 := ⟨fuel - 1, by omega⟩
    have hg : cs.length < g := by simp at hf; omega
    have hesc : escapeList (c :: cs) = escapeChar c ++ escapeList cs := by
      simp [escapeList]
    rw [hesc, List.append_assoc]
    by_cases h1 : c = '"'
    · subst h1; simp [escapeChar, parseStringBody, ih g rest hg]
    · by_cases h2 : c = '\\'
      · subst h2; simp [escapeChar, parseStringBody, ih g rest hg]
      · by_cases h3 : c = '\n'
        · subst h3; simp [escapeChar, parseStringBody, ih g rest hg]
        · by_cases h4 : c = '\t'
          · subst h4; simp [escapeChar, parseStringBody, ih g rest hg]
          · by_cases h5 : c = '\r'
            · subst h5; simp [escapeChar, parseStringBody, ih g rest hg]
            · by_cases h6 : c = Char.ofNat 8
              · subst h6; simp [escapeChar, parseStringBody, ih g rest hg]
              · by_cases h7 : c = Char.ofNat 12
                · subst h7; simp [escapeChar, parseStringBody, ih g rest hg]
                · by_cases h8 : c.toNat < 32
                  · rw [show escapeChar c =
                        ['\\', 'u', '0', '0', hexDigitChar (c.toNat / 16),
                         hexDigitChar (c.toNat % 16)] from by
                      simp [escapeChar, h1, h2, h3, h4, h5, h6, h7, h8]]
                    have hq : parseHexDigit (hexDigitChar (c.toNat / 16)) =
                        some (c.toNat / 16) := hexDigitChar_roundtrip _ (by omega)
                    have hr : parseHexDigit (hexDigitChar (c.toNat % 16)) =
                        some (c.toNat % 16) := hexDigitChar_roundtrip _ (by omega)
                    have h00 : parseHexDigit '0' = some 0 := by decide
                    simp [parseStringBody, hq, hr, h00, ih g rest hg]
                    have harith : c.toNat / 16 * 16 + c.toNat % 16 = c.toNat := by omega
                    rw [harith, Char.ofNat_toNat]
                  · rw [show escapeChar c = [c] from by
                      simp [escapeChar, h1, h2, h3, h4, h5, h6, h7, h8]]
                    simp [parseStringBody, h1, h2, ih g rest hg]

theorem digitChar_isDigit : ∀ k, k < 10 → isDigitChar (digitChar k) = true := by decide

theorem digitChar_val : ∀ k, k < 10 → (digitChar k).toNat - 48 = k := by decide

theorem natToChars_eq (n : Nat) :
    natToChars n =
      if n < 10 then [digitChar n] else natToChars (n / 10) ++ [digitChar (n % 10)] := by
  rw [natToChars]

theorem natToChars_head (n : Nat) :
    ∃ c t, natToChars n = c :: t ∧ isDigitChar c = true := by
  induction n using Nat.strong_induction_on with
  | _ n ih =>
    rw [natToChars_eq]
    by_cases h : n < 10
    · exact ⟨digitChar n, [], by simp [h], digitChar_isDigit n h⟩
    · obtain ⟨c, t, hct, hd⟩ := ih (n / 10) (Nat.div_lt_self (by omega) (by omega))
      refine ⟨c, t ++ [digitChar (n % 10)], ?_, hd⟩
      simp [h, hct]

theorem parseDigits_natToChars (n : Nat) : ∀ acc rest,
    parseDigits acc (natToChars n ++ rest) =
      parseDigits (acc * 10 ^ (natToChars n).length + n) rest := by
  induction n using Nat.strong_induction_on with
  | _ n ih =>
    intro acc rest
    rw [natToChars_eq]
    by_cases h : n < 10
    · simp only [if_pos h, List.singleton_append, List.length_singleton]
      rw [parseDigits]
      simp [digitChar_isDigit n h, digitChar_val n h]
    · simp only [if_neg h]
      rw [List.append_assoc, List.singleton_append,
          ih (n / 10) (Nat.div_lt_self (by omega) (by omega))]
      have hm : n % 10 < 10 := by omega
      rw [parseDigits]
      simp only [digitChar_isDigit _ hm, if_pos, digitChar_val _ hm]
      have hacc : (acc * 10 ^ (natToChars (n / 10)).length + n / 10) * 10 + n % 10 =
          acc * 10 ^ ((natToChars (n / 10)).length + 1) + n := by
        have hdm : n / 10 * 10 + n % 10 = n := by omega
        calc (acc * 10 ^ (natToChars (n / 10)).length + n / 10) * 10 + n % 10
            = acc * (10 ^ (natToChars (n / 10)).length * 10) + (n / 10 * 10 + n % 10) := by
              ring
          _ = acc * 10 ^ ((natToChars (n / 10)).length + 1) + n := by
              rw [hdm, pow_succ]
      rw [hacc]
      simp [List.length_append]

theorem parseDigits_stop (m : Nat) (rest : List Char)
    (h : rest = [] ∨ ∃ c t, rest = c :: t ∧ isDigitChar c = false) :
    parseDigits m rest = (m, rest) := by
  rcases h with h | ⟨c, t, rfl, hc⟩
  · subst h; rw [parseDigits]
  · rw [parseDigits]
    simp [hc]

/-- The characters after a rendered value in a rendered document: nothing, a
separating comma, or the newline before a closing bracket. -/
def restOk : List Char → Prop
  | [] => True
  | c :: _ => c = ',' ∨ c = '\n'

theorem restOk_not_digit {rest : List Char} (h : restOk rest) :
    rest = [] ∨ ∃ c t, rest = c :: t ∧ isDigitChar c = false ∧ c ≠ '.' ∧ c ≠ 'e' ∧ c ≠ 'E' := by
  cases rest with
  | nil => exact Or.inl rfl
  | cons c t =>
    refine Or.inr ⟨c, t, rfl, ?_⟩
    rcases h with h | h <;> subst h <;> exact ⟨by decide, by decide, by decide, by decide⟩

theorem parseNumberNat_natToChars (n : Nat) (rest : List Char) (h : restOk rest) :
    parseNumberNat (natToChars n ++ rest) = some (n, rest) := by
  obtain ⟨c, t, hct, hd⟩ := natToChars_head n
  have hp : parseDigits 0 (natToChars n ++ rest) = (n, rest) := by
    rw [parseDigits_natToChars]
    simp only [Nat.zero_mul, Nat.zero_add]
    apply parseDigits_stop
    rcases restOk_not_digit h with h' | ⟨c', t', rfl, hc', _⟩
    · exact Or.inl h'
    · exact Or.inr ⟨c', t', rfl, hc'⟩
  rw [hct, List.cons_append, parseNumberNat]
  simp only [hd, if_pos]
  rw [← List.cons_append, ← hct, hp]
  rcases restOk_not_digit h with h' | ⟨c', t', hr, _, h1, h2, h3⟩
  · subst h'; rfl
  · subst hr
    simp [h1, h2, h3]

theorem parseNumber_intToChars (i : Int) (rest : List Char) (h : restOk rest) :
    parseNumber (intToChars i ++ rest) = some (i, rest) := by
  by_cases hneg : i < 0
  · rw [intToChars, if_pos hneg, List.cons_append, parseNumber]
    simp only [if_pos rfl]
    rw [parseNumberNat_natToChars _ _ h]
    show some (-((i.natAbs : Nat) : Int), rest) = some (i, rest)
    rw [show -((i.natAbs : Nat) : Int) = i from by omega]
  · rw [intToChars, if_neg hneg]
    obtain ⟨c, t, hct, hd⟩ := natToChars_head i.toNat
    have hcm : c ≠ '-' := by
      intro he; subst he; exact absurd hd (by decide)
    rw [hct, List.cons_append, parseNumber]
    simp only [hcm, if_neg, if_false]
    rw [← List.cons_append, ← hct, parseNumberNat_natToChars _ _ h]
    show some (((i.toNat : Nat) : Int), rest) = some (i, rest)
    rw [Int.toNat_of_nonneg (by omega)]

theorem digit_head_facts (c : Char) (hd : isDigitChar c = true) :
    isWs c = false ∧ c ≠ 'n' ∧ c ≠ 't' ∧ c ≠ 'f' ∧ c ≠ '"' ∧ c ≠ '[' ∧
      c ≠ lbrace ∧ c ≠ ']' := by
  refine ⟨?_, fun he => absurd (he ▸ hd) (by decide),
    fun he => absurd (he ▸ hd) (by decide), fun he => absurd (he ▸ hd) (by decide),
    fun he => absurd (he ▸ hd) (by decide), fun he => absurd (he ▸ hd) (by decide),
    fun he => absurd (he ▸ hd) (by decide), fun he => absurd (he ▸ hd) (by decide)⟩
  cases hw : isWs c with
  | false => rfl
  | true =>
    exfalso
    have h1 : c ≠ ' ' := fun he => absurd (he ▸ hd) (by decide)
    have h2 : c ≠ '\n' := fun he => absurd (he ▸ hd) (by decide)
    have h3 : c ≠ '\t' := fun he => absurd (he ▸ hd) (by decide)
    have h4 : c ≠ '\r' := fun he => absurd (he ▸ hd) (by decide)
    simp [isWs, h1, h2, h3, h4] at hw

theorem jsize_pos (v : Json) : 1 ≤ jsize v := by
  cases v <;> simp [jsize]

theorem lsize_pos (l : List Json) : 1 ≤ lsize l := by
  cases l with
  | nil => simp [lsize]
  | cons x xs => simp [lsize]; omega

theorem msize_pos (ms : List (String × Json)) : 1 ≤ msize ms := by
  cases ms with
  | nil => simp [msize]
  | cons m ms =>
    obtain ⟨k, v⟩ := m
    simp [msize]
    omega

theorem renderAt_head (ind : Nat) (v : Json) :
    ∃ c t, renderAt ind v = c :: t ∧ isWs c = false ∧ c ≠ ']' := by
  cases v with
  | null => exact ⟨'n', ['u', 'l', 'l'], by simp [renderAt], by decide, by decide⟩
  | bool b =>
    cases b with
    | false => exact ⟨'f', ['a', 'l', 's', 'e'], by simp [renderAt], by decide, by decide⟩
    | true => exact ⟨'t', ['r', 'u', 'e'], by simp [renderAt], by decide, by decide⟩
  | num i =>
    by_cases hneg : i < 0
    · exact ⟨'-', natToChars i.natAbs, by simp [renderAt, intToChars, hneg],
        by decide, by decide⟩
    · obtain ⟨c, t, hct, hd⟩ := natToChars_head i.toNat
      obtain ⟨hw, _, _, _, _, _, _, hne⟩ := digit_head_facts c hd
      exact ⟨c, t, by simp [renderAt, intToChars, hneg, hct], hw, hne⟩
  | str s =>
    exact ⟨'"', escapeList s.data ++ ['"'], by simp [renderAt, renderString],
      by decide, by decide⟩
  | arr l =>
    cases l with
    | nil => exact ⟨'[', [']'], by simp [renderAt], by decide, by decide⟩
    | cons x xs =>
      exact ⟨'[', '\n' :: (spaces (ind + 2) ++ (renderAt (ind + 2) x ++
          (renderElems (ind + 2) xs ++ '\n' :: (spaces ind ++ [']'])))),
        by simp [renderAt], by decide, by decide⟩
  | obj ms =>
    cases ms with
    | nil => exact ⟨lbrace, [rbrace], by simp [renderAt], by decide, by decide⟩
    | cons m ms =>
      obtain ⟨k, v⟩ := m
      exact ⟨lbrace, '\n' :: (spaces (ind + 2) ++ (renderString k ++ ':' :: ' ' ::
          (renderAt (ind + 2) v ++ (renderMembers (ind + 2) ms ++
            '\n' :: (spaces ind ++ [rbrace]))))),
        by simp [renderAt], by decide, by decide⟩

theorem restOk_renderElems (ind : Nat) (xs : List Json) (l : List Char) :
    restOk (renderElems ind xs ++ '\n' :: l) := by
  cases xs with
  | nil => simp [renderElems, restOk]
  | cons x xs =>
    rw [show renderElems ind (x :: xs) =
        ',' :: '\n' :: (spaces ind ++ renderAt ind x ++ renderElems ind xs) from by
      simp [renderElems]]
    simp [restOk]

theorem restOk_renderMembers (ind : Nat) (ms : List (String × Json)) (l : List Char) :
    restOk (renderMembers ind ms ++ '\n' :: l) := by
  cases ms with
  | nil => simp [renderMembers, restOk]
  | cons m ms =>
    obtain ⟨k, v⟩ := m
    rw [show renderMembers ind ((k, v) :: ms) =
        ',' :: '\n' :: (spaces ind ++ renderString k ++ ':' :: ' ' ::
          (renderAt ind v ++ renderMembers ind ms)) from by
      simp [renderMembers]]
    simp [restOk]

theorem parse_render_aux : ∀ fuel : Nat,
    (∀ (v : Json) (ind : Nat) (rest : List Char), jsize v ≤ fuel → restOk rest →
      parseValue fuel (renderAt ind v ++ rest) = some (v, rest)) ∧
    (∀ (xs : List Json) (ind icl : Nat) (rest : List Char), lsize xs ≤ fuel → restOk rest →
      parseElemsTail fuel (renderElems ind xs ++ '\n' :: (spaces icl ++ ']' :: rest)) =
        some (xs, rest)) ∧
    (∀ (ms : List (String × Json)) (ind icl : Nat) (rest : List Char),
      msize ms ≤ fuel → restOk rest →
      parseMembersTail fuel (renderMembers ind ms ++ '\n' :: (spaces icl ++ rbrace :: rest)) =
        some (ms, rest)) := by
  intro fuel
  induction fuel using Nat.strong_induction_on with
  | _ fuel IH =>
    refine ⟨?_, ?_, ?_⟩
    · intro v ind rest hsz hrest
      have hvpos := jsize_pos v
      obtain ⟨f, rfl⟩ : ∃ f, fuel = f + 1 := ⟨fuel - 1, by omega⟩
      cases v with
      | null =>
        rw [show renderAt ind Json.null = ['n', 'u', 'l', 'l'] from by simp [renderAt]]
        simp [parseValue, skipWs, isWs]
      | bool b =>
        cases b with
        | false =>
          rw [show renderAt ind (Json.bool false) = ['f', 'a', 'l', 's', 'e'] from by
            simp [renderAt]]
          simp [parseValue, skipWs, isWs]
        | true =>
          rw [show renderAt ind (Json.bool true) = ['t', 'r', 'u', 'e'] from by
            simp [renderAt]]
          simp [parseValue, skipWs, isWs]
      | num i =>
        rw [show renderAt ind (Json.num i) = intToChars i from by simp [renderAt]]
        have hp : parseNumber (intToChars i ++ rest) = some (i, rest) :=
          parseNumber_intToChars i rest hrest
        by_cases hneg : i < 0
        · have he : intToChars i ++ rest = '-' :: (natToChars i.natAbs ++ rest) := by
            rw [intToChars, if_pos hneg, List.cons_append]
          rw [he]
          rw [he] at hp
          have hmlb : ('-' : Char) ≠ lbrace := by decide
          simp [parseValue, skipWs, isWs, hp, hmlb]
        · obtain ⟨c, t, hct, hd⟩ := natToChars_head i.toNat
          obtain ⟨hw, hn, ht2, hf2, hq, hb, hlb, _⟩ := digit_head_facts c hd
          have he : intToChars i ++ rest = c :: (t ++ rest) := by
            rw [intToChars, if_neg hneg, hct, List.cons_append]
          rw [he]
          rw [he] at hp
          simp [parseValue, skipWs_cons_of_not_ws _ _ hw, hn, ht2, hf2, hq, hb, hlb, hd, hp]
      | str s =>
        rw [show renderAt ind (Json.str s) ++ rest =
            '"' :: (escapeList s.data ++ '"' :: rest) from by
          simp [renderAt, renderString]]
        have hlen : s.data.length < (escapeList s.data ++ '"' :: rest).length := by
          rw [List.length_append, List.length_cons]
          have := escapeList_length_ge s.data
          omega
        have hsb := parseStringBody_escape s.data
          (escapeList s.data ++ '"' :: rest).length rest hlen
        rw [List.length_append, List.length_cons] at hsb
        simp [parseValue, skipWs, isWs, hsb]
      | arr l =>
        cases l with
        | nil =>
          obtain ⟨g, rfl⟩ : ∃ g, f = g + 1 := ⟨f - 1, by simp [jsize, lsize] at hsz; omega⟩
          rw [show renderAt ind (Json.arr []) = ['[', ']'] from by simp [renderAt]]
          simp [parseValue, parseElems, skipWs, isWs]
        | cons x xs =>
          have hx := jsize_pos x
          have hxs := lsize_pos xs
          have hsz2 : 2 + jsize x + lsize xs ≤ f + 1 := by
            simp [jsize, lsize] at hsz
            omega
          obtain ⟨g, rfl⟩ : ∃ g, f = g + 1 := ⟨f - 1, by omega⟩
          rw [show renderAt ind (Json.arr (x :: xs)) ++ rest =
              '[' :: '\n' :: (spaces (ind + 2) ++ (renderAt (ind + 2) x ++
                (renderElems (ind + 2) xs ++ '\n' :: (spaces ind ++ ']' :: rest)))) from by
            simp [renderAt]]
          rw [show parseValue (g + 1 + 1) ('[' :: '\n' :: (spaces (ind + 2) ++
                (renderAt (ind + 2) x ++ (renderElems (ind + 2) xs ++
                  '\n' :: (spaces ind ++ ']' :: rest))))) =
              parseElems (g + 1) ('\n' :: (spaces (ind + 2) ++ (renderAt (ind + 2) x ++
                (renderElems (ind + 2) xs ++ '\n' :: (spaces ind ++ ']' :: rest))))) from by
            simp [parseValue, skipWs, isWs]]
          obtain ⟨c, t, hct, hwc, hrb⟩ := renderAt_head (ind + 2) x
          have hskip : skipWs ('\n' :: (spaces (ind + 2) ++ (renderAt (ind + 2) x ++
              (renderElems (ind + 2) xs ++ '\n' :: (spaces ind ++ ']' :: rest))))) =
              c :: (t ++ (renderElems (ind + 2) xs ++ '\n' :: (spaces ind ++ ']' :: rest))) := by
            rw [skipWs_cons_of_ws _ _ (by decide), skipWs_spaces_append, hct, List.cons_append,
                skipWs_cons_of_not_ws _ _ hwc]
          have hxIH := (IH g (by omega)).1 x (ind + 2)
            (renderElems (ind + 2) xs ++ '\n' :: (spaces ind ++ ']' :: rest))
            (by omega) (restOk_renderElems _ _ _)
          rw [hct, List.cons_append] at hxIH
          have htail := (IH g (by omega)).2.1 xs (ind + 2) ind rest (by omega) hrest
          simp [parseElems, hskip, hrb, hxIH, htail]
      | obj ms =>
        cases ms with
        | nil =>
          obtain ⟨g, rfl⟩ : ∃ g, f = g + 1 := ⟨f - 1, by simp [jsize, msize] at hsz; omega⟩
          rw [show renderAt ind (Json.obj []) = [lbrace, rbrace] from by simp [renderAt]]
          have e1 : lbrace ≠ 'n' := by decide
          have e2 : lbrace ≠ 't' := by decide
          have e3 : lbrace ≠ 'f' := by decide
          have e4 : lbrace ≠ '"' := by decide
          have e5 : lbrace ≠ '[' := by decide
          have ew : isWs lbrace = false := by decide
          have ew2 : isWs rbrace = false := by decide
          rw [show ([lbrace, rbrace] : List Char) ++ rest = lbrace :: rbrace :: rest from rfl]
          rw [show parseValue (g + 1 + 1) (lbrace :: rbrace :: rest) =
              parseMembers (g + 1) (rbrace :: rest) from by
            simp [parseValue, skipWs_cons_of_not_ws _ _ ew, e1, e2, e3, e4, e5]]
          simp [parseMembers, skipWs_cons_of_not_ws _ _ ew2]
        | cons m ms =>
          obtain ⟨k, v⟩ := m
          have hv := jsize_pos v
          have hms := msize_pos ms
          have hsz2 : 2 + jsize v + msize ms ≤ f + 1 := by
            simp [jsize, msize] at hsz
            omega
          obtain ⟨g, rfl⟩ : ∃ g, f = g + 1 := ⟨f - 1, by omega⟩
          rw [show renderAt ind (Json.obj ((k, v) :: ms)) ++ rest =
              lbrace :: '\n' :: (spaces (ind + 2) ++ ('"' :: (escapeList k.data ++
                '"' :: (':' :: ' ' :: (renderAt (ind + 2) v ++ (renderMembers (ind + 2) ms ++
                  '\n' :: (spaces ind ++ rbrace :: rest))))))) from by
            simp [renderAt, renderString]]
          have e1 : lbrace ≠ 'n' := by decide
          have e2 : lbrace ≠ 't' := by decide
          have e3 : lbrace ≠ 'f' := by decide
          have e4 : lbrace ≠ '"' := by decide
          have e5 : lbrace ≠ '[' := by decide
          have ew : isWs lbrace = false := by decide
          rw [show parseValue (g + 1 + 1) (lbrace :: '\n' :: (spaces (ind + 2) ++
                ('"' :: (escapeList k.data ++ '"' :: (':' :: ' ' :: (renderAt (ind + 2) v ++
                  (renderMembers (ind + 2) ms ++ '\n' :: (spaces ind ++ rbrace :: rest)))))))) =
              parseMembers (g + 1) ('\n' :: (spaces (ind + 2) ++
                ('"' :: (escapeList k.data ++ '"' :: (':' :: ' ' :: (renderAt (ind + 2) v ++
                  (renderMembers (ind + 2) ms ++ '\n' :: (spaces ind ++ rbrace :: rest)))))))) from by
            simp [parseValue, skipWs_cons_of_not_ws _ _ ew, e1, e2, e3, e4, e5]]
          have hskip : skipWs ('\n' :: (spaces (ind + 2) ++
              ('"' :: (escapeList k.data ++ '"' :: (':' :: ' ' :: (renderAt (ind + 2) v ++
                (renderMembers (ind + 2) ms ++ '\n' :: (spaces ind ++ rbrace :: rest)))))))) =
              '"' :: (escapeList k.data ++ '"' :: (':' :: ' ' :: (renderAt (ind + 2) v ++
                (renderMembers (ind + 2) ms ++ '\n' :: (spaces ind ++ rbrace :: rest))))) := by
            rw [skipWs_cons_of_ws _ _ (by decide), skipWs_spaces_append,
                skipWs_cons_of_not_ws _ _ (by decide)]
          have hqr : ('"' : Char) ≠ rbrace := by decide
          have hkey := parseStringBody_escape k.data
            ((escapeList k.data).length + ((renderAt (ind + 2) v).length +
              ((renderMembers (ind + 2) ms).length +
                ((spaces ind).length + (rest.length + 1) + 1)) + 1 + 1 + 1))
            (':' :: ' ' :: (renderAt (ind + 2) v ++ (renderMembers (ind + 2) ms ++
              '\n' :: (spaces ind ++ rbrace :: rest))))
            (by have := escapeList_length_ge k.data; omega)
          have hcolon : skipWs (':' :: ' ' :: (renderAt (ind + 2) v ++
              (renderMembers (ind + 2) ms ++ '\n' :: (spaces ind ++ rbrace :: rest)))) =
              ':' :: ' ' :: (renderAt (ind + 2) v ++ (renderMembers (ind + 2) ms ++
                '\n' :: (spaces ind ++ rbrace :: rest))) :=
            skipWs_cons_of_not_ws _ _ (by decide)
          have hvIH := (IH g (by omega)).1 v (ind + 2)
            (renderMembers (ind + 2) ms ++ '\n' :: (spaces ind ++ rbrace :: rest))
            (by omega) (restOk_renderMembers _ _ _)
          have hvIH2 : parseValue g (' ' :: (renderAt (ind + 2) v ++
              (renderMembers (ind + 2) ms ++ '\n' :: (spaces ind ++ rbrace :: rest)))) =
              some (v, renderMembers (ind + 2) ms ++ '\n' :: (spaces ind ++ rbrace :: rest)) := by
            rw [parseValue_congr g (skipWs_cons_of_ws ' ' _ (by decide))]
            exact hvIH
          have htail := (IH g (by omega)).2.2 ms (ind + 2) ind rest (by omega) hrest
          simp [parseMembers, hskip, hqr, hkey, hcolon, hvIH2, htail]
    · intro xs ind icl rest hsz hrest
      obtain ⟨f, rfl⟩ : ∃ f, fuel = f + 1 := ⟨fuel - 1, by have := lsize_pos xs; omega⟩
      cases xs with
      | nil =>
        rw [show renderElems ind ([] : List Json) = [] from by simp [renderElems]]
        rw [List.nil_append]
        have hskip : skipWs ('\n' :: (spaces icl ++ ']' :: rest)) = ']' :: rest := by
          rw [skipWs_cons_of_ws _ _ (by decide), skipWs_spaces_append,
              skipWs_cons_of_not_ws _ _ (by decide)]
        simp [parseElemsTail, hskip]
      | cons x xs =>
        have hx := jsize_pos x
        have hxs := lsize_pos xs
        have hsz2 : 1 + jsize x + lsize xs ≤ f + 1 := by
          simp [lsize] at hsz
          omega
        rw [show renderElems ind (x :: xs) ++ '\n' :: (spaces icl ++ ']' :: rest) =
            ',' :: '\n' :: (spaces ind ++ (renderAt ind x ++ (renderElems ind xs ++
              '\n' :: (spaces icl ++ ']' :: rest)))) from by
          simp [renderElems]]
        have hvp : parseValue f ('\n' :: (spaces ind ++ (renderAt ind x ++
            (renderElems ind xs ++ '\n' :: (spaces icl ++ ']' :: rest))))) =
            some (x, renderElems ind xs ++ '\n' :: (spaces icl ++ ']' :: rest)) := by
          rw [parseValue_congr f (show skipWs ('\n' :: (spaces ind ++ (renderAt ind x ++
              (renderElems ind xs ++ '\n' :: (spaces icl ++ ']' :: rest))))) =
              skipWs (renderAt ind x ++ (renderElems ind xs ++
                '\n' :: (spaces icl ++ ']' :: rest))) from by
            rw [skipWs_cons_of_ws _ _ (by decide), skipWs_spaces_append])]
          exact (IH f (by omega)).1 x ind
            (renderElems ind xs ++ '\n' :: (spaces icl ++ ']' :: rest))
            (by omega) (restOk_renderElems _ _ _)
        have htail := (IH f (by omega)).2.1 xs ind icl rest (by omega) hrest
        simp [parseElemsTail, skipWs_cons_of_not_ws ',' _ (by decide), hvp, htail]
    · intro ms ind icl rest hsz hrest
      obtain ⟨f, rfl⟩ : ∃ f, fuel = f + 1 := ⟨fuel - 1, by have := msize_pos ms; omega⟩
      cases ms with
      | nil =>
        rw [show renderMembers ind ([] : List (String × Json)) = [] from by
          simp [renderMembers]]
        rw [List.nil_append]
        have hskip : skipWs ('\n' :: (spaces icl ++ rbrace :: rest)) = rbrace :: rest := by
          rw [skipWs_cons_of_ws _ _ (by decide), skipWs_spaces_append,
              skipWs_cons_of_not_ws _ _ (by decide)]
        simp [parseMembersTail, hskip]
      | cons m ms =>
        obtain ⟨k, v⟩ := m
        have hv := jsize_pos v
        have hms := msize_pos ms
        have hsz2 : 1 + jsize v + msize ms ≤ f + 1 := by
          simp [msize] at hsz
          omega
        rw [show renderMembers ind ((k, v) :: ms) ++ '\n' :: (spaces icl ++ rbrace :: rest) =
            ',' :: '\n' :: (spaces ind ++ ('"' :: (escapeList k.data ++ '"' ::
              (':' :: ' ' :: (renderAt ind v ++ (renderMembers ind ms ++
                '\n' :: (spaces icl ++ rbrace :: rest))))))) from by
          simp [renderMembers, renderString]]
        have hcr : (',' : Char) ≠ rbrace := by decide
        have hqr : ('"' : Char) ≠ rbrace := by decide
        have hskip2 : skipWs ('\n' :: (spaces ind ++ ('"' :: (escapeList k.data ++ '"' ::
            (':' :: ' ' :: (renderAt ind v ++ (renderMembers ind ms ++
              '\n' :: (spaces icl ++ rbrace :: rest)))))))) =
            '"' :: (escapeList k.data ++ '"' :: (':' :: ' ' :: (renderAt ind v ++
              (renderMembers ind ms ++ '\n' :: (spaces icl ++ rbrace :: rest))))) := by
          rw [skipWs_cons_of_ws _ _ (by decide), skipWs_spaces_append,
              skipWs_cons_of_not_ws _ _ (by decide)]
        have hkey := parseStringBody_escape k.data
          ((escapeList k.data).length + ((renderAt ind v).length +
            ((renderMembers ind ms).length +
              ((spaces icl).length + (rest.length + 1) + 1)) + 1 + 1 + 1))
          (':' :: ' ' :: (renderAt ind v ++ (renderMembers ind ms ++
            '\n' :: (spaces icl ++ rbrace :: rest))))
          (by have := escapeList_length_ge k.data; omega)
        have hcolon : skipWs (':' :: ' ' :: (renderAt ind v ++ (renderMembers ind ms ++
            '\n' :: (spaces icl ++ rbrace :: rest)))) =
            ':' :: ' ' :: (renderAt ind v ++ (renderMembers ind ms ++
              '\n' :: (spaces icl ++ rbrace :: rest))) :=
          skipWs_cons_of_not_ws _ _ (by decide)
        have hvp : parseValue f (' ' :: (renderAt ind v ++ (renderMembers ind ms ++
            '\n' :: (spaces icl ++ rbrace :: rest)))) =
            some (v, renderMembers ind ms ++ '\n' :: (spaces icl ++ rbrace :: rest)) := by
          rw [parseValue_congr f (skipWs_cons_of_ws ' ' _ (by decide))]
          exact (IH f (by omega)).1 v ind
            (renderMembers ind ms ++ '\n' :: (spaces icl ++ rbrace :: rest))
            (by omega) (restOk_renderMembers _ _ _)
        have htail := (IH f (by omega)).2.2 ms ind icl rest (by omega) hrest
        simp [parseMembersTail, skipWs_cons_of_not_ws ',' _ (by decide), hcr, hskip2,
          hqr, hkey, hcolon, hvp, htail]

theorem natToChars_length_pos (n : Nat) : 1 ≤ (natToChars n).length := by
  obtain ⟨c, t, hct, _⟩ := natToChars_head n
  simp [hct]

theorem render_length_aux : ∀ n : Nat,
    (∀ v : Json, sizeOf v ≤ n → ∀ ind, jsize v ≤ (renderAt ind v).length) ∧
    (∀ xs : List Json, sizeOf xs ≤ n → ∀ ind, lsize xs ≤ (renderElems ind xs).length + 1) ∧
    (∀ ms : List (String × Json), sizeOf ms ≤ n → ∀ ind,
      msize ms ≤ (renderMembers ind ms).length + 1) := by
  intro n
  induction n using Nat.strong_induction_on with
  | _ n IH =>
    refine ⟨?_, ?_, ?_⟩
    · intro v hsv ind
      cases v with
      | null => simp [renderAt, jsize]
      | bool b => cases b <;> simp [renderAt, jsize]
      | num i =>
        rw [show renderAt ind (Json.num i) = intToChars i from by simp [renderAt]]
        rw [intToChars]
        by_cases hneg : i < 0
        · have := natToChars_length_pos i.natAbs
          simp [hneg, jsize]
          try omega
        · have := natToChars_length_pos i.toNat
          simp [hneg, jsize]
          omega
      | str s =>
        rw [show renderAt ind (Json.str s) =
            '"' :: (escapeList s.data ++ ['"']) from by simp [renderAt, renderString]]
        simp [jsize]
      | arr l =>
        cases l with
        | nil => simp [renderAt, jsize, lsize]
        | cons x xs =>
          have h1 : sizeOf x < n := by
            have : sizeOf x < sizeOf (Json.arr (x :: xs)) := by simp; omega
            omega
          have h2 : sizeOf xs < n := by
            have : sizeOf xs < sizeOf (Json.arr (x :: xs)) := by simp; omega
            omega
          have hx := (IH (sizeOf x) h1).1 x (le_refl _) (ind + 2)
          have hl := (IH (sizeOf xs) h2).2.1 xs (le_refl _) (ind + 2)
          rw [show renderAt ind (Json.arr (x :: xs)) =
              '[' :: '\n' :: (spaces (ind + 2) ++ (renderAt (ind + 2) x ++
                (renderElems (ind + 2) xs ++ '\n' :: (spaces ind ++ [']'])))) from by
            simp [renderAt]]
          simp [jsize, lsize, List.length_append, spaces]
          omega
      | obj ms =>
        cases ms with
        | nil => simp [renderAt, jsize, msize]
        | cons m ms =>
          obtain ⟨k, v⟩ := m
          have h1 : sizeOf v < n := by
            have : sizeOf v < sizeOf (Json.obj ((k, v) :: ms)) := by simp; omega
            omega
          have h2 : sizeOf ms < n := by
            have : sizeOf ms < sizeOf (Json.obj ((k, v) :: ms)) := by simp; omega
            omega
          have hv := (IH (sizeOf v) h1).1 v (le_refl _) (ind + 2)
          have hm := (IH (sizeOf ms) h2).2.2 ms (le_refl _) (ind + 2)
          rw [show renderAt ind (Json.obj ((k, v) :: ms)) =
              lbrace :: '\n' :: (spaces (ind + 2) ++ ('"' :: (escapeList k.data ++
                '"' :: (':' :: ' ' :: (renderAt (ind + 2) v ++ (renderMembers (ind + 2) ms ++
                  '\n' :: (spaces ind ++ [rbrace]))))))) from by
            simp [renderAt, renderString]]
          simp [jsize, msize, List.length_append, spaces]
          omega
    · intro xs hsx ind
      cases xs with
      | nil => simp [renderElems, lsize]
      | cons x xs =>
        have h1 : sizeOf x < n := by
          have : sizeOf x < sizeOf (x :: xs) := by simp; try omega
          omega
        have h2 : sizeOf xs < n := by
          have : sizeOf xs < sizeOf (x :: xs) := by simp; try omega
          omega
        have hx := (IH (sizeOf x) h1).1 x (le_refl _) ind
        have hl := (IH (sizeOf xs) h2).2.1 xs (le_refl _) ind
        rw [show renderElems ind (x :: xs) =
            ',' :: '\n' :: (spaces ind ++ renderAt ind x ++ renderElems ind xs) from by
          simp [renderElems]]
        simp [lsize, List.length_append, spaces]
        omega
    · intro ms hsm ind
      cases ms with
      | nil => simp [renderMembers, msize]
      | cons m ms =>
        obtain ⟨k, v⟩ := m
        have h1 : sizeOf v < n := by
          have : sizeOf v < sizeOf ((k, v) :: ms) := by simp; try omega
          omega
        have h2 : sizeOf ms < n := by
          have : sizeOf ms < sizeOf ((k, v) :: ms) := by simp; try omega
          omega
        have hv := (IH (sizeOf v) h1).1 v (le_refl _) ind
        have hm := (IH (sizeOf ms) h2).2.2 ms (le_refl _) ind
        rw [show renderMembers ind ((k, v) :: ms) =
            ',' :: '\n' :: (spaces ind ++ renderString k ++ ':' :: ' ' ::
              (renderAt ind v ++ renderMembers ind ms)) from by
          simp [renderMembers]]
        simp [msize, renderString, List.length_append, spaces]
        omega

theorem render_length_bound (v : Json) (ind : Nat) : jsize v ≤ (renderAt ind v).length :=
  (render_length_aux (sizeOf v)).1 v (le_refl _) ind

theorem parseTop_render (v : Json) : parseTop (renderAt 0 v) = some v := by
  unfold parseTop
  have hb := render_length_bound v 0
  have h := (parse_render_aux ((renderAt 0 v).length + 1)).1 v 0 [] (by omega) trivial
  rw [List.append_nil] at h
  rw [h]
  simp [skipWs]

theorem recordFields_storeToJson (store : Store) :
    recordFields (store.map (fun kv => (kv.1, Json.obj kv.2))) = some store := by
  induction store with
  | nil => simp [recordFields]
  | cons kv rest ih =>
    obtain ⟨k, r⟩ := kv
    simp [recordFields, ih]

theorem jsonToStore_storeToJson (store : Store) :
    jsonToStore (storeToJson store) = some store := by
  simp [jsonToStore, storeToJson, recordFields_storeToJson]

/-- C8: the aggregate mapping written by `save_data` is read back by
`load_existing_data` as exactly the document that was written — every record,
every field value (non-ASCII text included) and every sequence in its
original order — and likewise each per-country file written by
`generate_individual_country_files` parses back to exactly its record.  The
`wfStore` hypothesis records that the store is the image of Python dicts, so
all object key lists are duplicate-free. -/
theorem c8_save_load_roundtrip (store : Store) (_hwf : wfStore store = true) :
    (load_existing_data (some (save_data store))).bind jsonToStore = some store ∧
    (generate_individual_country_files store).map
        (fun kv => (kv.1, load_existing_data (some kv.2))) =
      store.map (fun kv => (kv.1, some (Json.obj kv.2))) := by
  constructor
  · show (parseTop (String.mk (renderAt 0 (storeToJson store))).data).bind jsonToStore =
      some store
    rw [show (String.mk (renderAt 0 (storeToJson store))).data =
        renderAt 0 (storeToJson store) from rfl]
    rw [parseTop_render]
    simp [jsonToStore_storeToJson]
  · unfold generate_individual_country_files
    rw [List.map_map]
    have hfun : ((fun kv : String × String => (kv.1, load_existing_data (some kv.2))) ∘
        (fun kv : String × Obj => (kv.1, String.mk (renderAt 0 (Json.obj kv.2))))) =
        fun kv : String × Obj => (kv.1, some (Json.obj kv.2)) := by
      funext kv
      show (kv.1, load_existing_data (some (String.mk (renderAt 0 (Json.obj kv.2))))) =
        (kv.1, some (Json.obj kv.2))
      rw [show load_existing_data (some (String.mk (renderAt 0 (Json.obj kv.2)))) =
          parseTop (renderAt 0 (Json.obj kv.2)) from rfl, parseTop_render]
    rw [hfun]

/-- A store with non-ASCII text, escapes and nested ordered sequences, to
witness C8. -/
def c8Store : Store :=
  [ ("SG",
      [ ("overview", Json.str "Autorité é ü\nsecond line"),
        ("regulations", Json.arr
          [ Json.obj [("title", Json.str "PSA"), ("count", Json.num 5)],
            Json.null, Json.bool true, Json.num (-17) ]) ]),
    ("US", [("autoFetched", Json.bool false)]) ]

/-- Witness for C8 at `c8Store`. -/
theorem c8_save_load_roundtrip_witness :
    wfStore c8Store = true ∧
    ((load_existing_data (some (save_data c8Store))).bind jsonToStore = some c8Store ∧
     (generate_individual_country_files c8Store).map
         (fun kv => (kv.1, load_existing_data (some kv.2))) =
       c8Store.map (fun kv => (kv.1, some (Json.obj kv.2)))) :=
  ⟨rfl, c8_save_load_roundtrip c8Store rfl⟩
